import Mathlib

/-!
Verification development for the veri-easy differential equivalence checker.

The Rust sources are shallowly embedded: strings are lists of characters
(`Str`), `defs::path::Path` becomes `Path`, `defs::types::Type` becomes `Ty`,
`syn`-level signatures become `Signature`, and the checker state machine of
`check.rs` becomes explicit state passing over `CheckerState`.  Every
definition is translated from the corresponding Rust item; comments name the
source location.
-/

namespace VeriEasy

/-- Rust `String` / `&str`, embedded as a list of characters. -/
abbrev Str := List Char

/-! ## `defs/path.rs` -/

/-- `defs::path::Path`: fully qualified path of a symbol (`pub struct Path(pub Vec<String>)`). -/
structure Path where
  segs : List Str
deriving DecidableEq

/-- Helper for `Vec<String>::join(sep)` as used by `Path::to_string` /
`Path::to_ident` (Rust `join` on an empty vector yields the empty string). -/
def joinSep (sep : Str) : List Str → Str
  | [] => []
  | [x] => x
  | x :: y :: rest => x ++ sep ++ joinSep sep (y :: rest)

/-- `Path::to_string`: join the segments with `"::"`. -/
def Path.to_string (p : Path) : Str := joinSep [':', ':'] p.segs

/-- `Path::to_ident`: join the segments with `"___"`. -/
def Path.to_ident (p : Path) : Str := joinSep ['_', '_', '_'] p.segs

/-- Rust `str::split("::")` (leftmost, non-overlapping occurrences of the
two-character separator; an input without separators yields one piece, so the
empty string yields `[[]]`), specialised to the `"::"` separator used by
`Path::from_str`. -/
def splitColons : Str → List Str
  | [] => [[]]
  | [c] => [[c]]
  | c1 :: c2 :: rest =>
    if c1 = ':' ∧ c2 = ':' then [] :: splitColons rest
    else
      match splitColons (c2 :: rest) with
      | [] => [[c1]]
      | p :: ps => (c1 :: p) :: ps

/-- `Path::from_str`: split on `"::"`. -/
def Path.from_str (s : Str) : Path := ⟨splitColons s⟩

/-- `Path::join`: push one further segment. -/
def Path.join (p : Path) (seg : Str) : Path := ⟨p.segs ++ [seg]⟩

/-- `Path::empty`. -/
def Path.empty : Path := ⟨[]⟩

/-- Whether a segment contains the separator `"::"` as a substring (used to
state the round-trip hypotheses of claim C10). -/
def hasColons : Str → Bool
  | c1 :: c2 :: rest => (decide (c1 = ':') && decide (c2 = ':')) || hasColons (c2 :: rest)
  | _ => false

/-! ## `defs/types.rs` -/

/-- `defs::types::Type`: either a generic type (base path plus generic
arguments, as in `GenericType`) or a precise type (`PreciseType`, a bare
path). -/
inductive Ty where
  | generic (path : Path) (generics : List Ty)
  | precise (path : Path)

mutual

/-- Structural (derived `PartialEq`) equality test on `Type`, used where the
Rust code compares `Type` values or keys a `BTreeMap` by `Type`. -/
def Ty.beq : Ty → Ty → Bool
  | .precise p1, .precise p2 => decide (p1 = p2)
  | .generic p1 g1, .generic p2 g2 => decide (p1 = p2) && Ty.beqList g1 g2
  | _, _ => false

/-- Pointwise `Ty.beq` on lists of generic arguments. -/
def Ty.beqList : List Ty → List Ty → Bool
  | [], [] => true
  | t :: ts, u :: us => Ty.beq t u && Ty.beqList ts us
  | _, _ => false

end

/-- `Type::eq_ignore_generics`: generic types compare by base path only,
precise types compare fully, mixed kinds are unequal. -/
def Ty.eq_ignore_generics : Ty → Ty → Bool
  | .generic p1 _, .generic p2 _ => decide (p1 = p2)
  | .precise p1, .precise p2 => decide (p1 = p2)
  | _, _ => false

/-- `defs::types::InstantiatedType`: an alias path together with the concrete
generic type it instantiates. -/
structure InstantiatedType where
  alias_ : Path
  concrete : Ty

/-! ## `syn`-level signatures (`defs/function.rs`) -/

/-- Embedding of the fragment of `syn::Type` the checker inspects: a path type
keeps, per segment, its identifier and its generic arguments (mirroring
`syn::TypePath`); every non-path type is collapsed by `type_to_string` to the
marker `"unsupported"`, so it is embedded as a single constructor. -/
inductive SynType where
  | path (segs : List (Str × List SynType))
  | unsupported

/-- `type_to_string` from `defs/function.rs`: render only the segment
identifiers, joined by `sep`; non-path types render as `"unsupported"`.
Generic arguments are never rendered, which is where "ignoring generic
arguments" comes from. -/
def type_to_string (ty : SynType) (sep : Str) : Str :=
  match ty with
  | .path segs => joinSep sep (segs.map Prod.fst)
  | .unsupported => "unsupported".toList

/-- `type_eq` from `defs/function.rs`: equality of the `"::"`-rendered
paths. -/
def type_eq (a b : SynType) : Bool :=
  decide (type_to_string a [':', ':'] = type_to_string b [':', ':'])

/-- Embedding of `syn::FnArg`: a `self` receiver or a typed parameter.  The
receiver's reference/mutability tokens and the parameter pattern are only used
when printing harness code, not by any function under verification, so they
are omitted. -/
inductive FnArg where
  | receiver
  | typed (ty : SynType)

/-- Pairwise parameter comparison used inside `Signature::eq`: two receivers
match, two typed parameters match when `type_eq` holds, and a receiver never
matches a typed parameter. -/
def fn_arg_eq : FnArg → FnArg → Bool
  | .receiver, .receiver => true
  | .typed a, .typed b => type_eq a b
  | _, _ => false

/-- Embedding of `syn::Signature` as wrapped by `defs::function::Signature`:
the function identifier, the ordered inputs, and the optional return type
(`None` embeds `ReturnType::Default`). -/
structure Signature where
  ident : Str
  inputs : List FnArg
  output : Option SynType

/-- `impl PartialEq for Signature` (`defs/function.rs` lines 9-29): same
identifier, same number of inputs, pairwise `fn_arg_eq` inputs, and return
types both absent or both present and `type_eq`. -/
def Signature.sig_eq (s1 s2 : Signature) : Bool :=
  decide (s1.ident = s2.ident) &&
    decide (s1.inputs.length = s2.inputs.length) &&
    (s1.inputs.zip s2.inputs).all (fun ab => fn_arg_eq ab.1 ab.2) &&
    (match s1.output, s2.output with
     | none, none => true
     | some a, some b => type_eq a b
     | _, _ => false)

/-- Modelled from the spec (§4.1): the matching contract stated in the spec's
words — same identifier, same parameter count, each parameter position
pairwise both-receiver or both-typed with equal rendered paths, same
optional-return-type rule.  Used only to compare the spec's description of
matching with the code's `Signature::eq` (claim C4). -/
def sig_match_spec (s1 s2 : Signature) : Prop :=
  s1.ident = s2.ident ∧ s1.inputs.length = s2.inputs.length ∧
    (∀ i (h1 : i < s1.inputs.length) (h2 : i < s2.inputs.length),
      fn_arg_eq (s1.inputs.get ⟨i, h1⟩) (s2.inputs.get ⟨i, h2⟩) = true) ∧
    ((s1.output = none ∧ s2.output = none) ∨
      (∃ a b, s1.output = some a ∧ s2.output = some b ∧ type_eq a b = true))

/-! ## `defs/function.rs`: function records -/

/-- `defs::function::FunctionMetadata`. -/
structure FunctionMetadata where
  name : Path
  signature : Signature
  impl_type : Option Ty
  trait_ : Option Path

/-- `FunctionMetadata::ident`: the signature's identifier. -/
def FunctionMetadata.ident (m : FunctionMetadata) : Str := m.signature.ident

/-- Modelled from the spec: `FunctionMetadata::is_constructor` is called from
`check.rs` but its definition is not among the available sources; per the
spec (§4.3) the reserved constructor marker is the local identifier
`verieasy_new`, the same literal `generate.rs` tests against. -/
def FunctionMetadata.is_constructor (m : FunctionMetadata) : Bool :=
  decide (m.ident = "verieasy_new".toList)

/-- Modelled from the spec: `FunctionMetadata::is_getter` is called from
`check.rs` but its definition is not among the available sources; per the
spec (§4.3) the reserved getter marker is the local identifier `verieasy_get`,
the same literal `generate.rs` tests against. -/
def FunctionMetadata.is_getter (m : FunctionMetadata) : Bool :=
  decide (m.ident = "verieasy_get".toList)
/-- `defs::function::Function`: metadata plus body text. -/
structure Function where
  metadata : FunctionMetadata
  body : Str

/-- `defs::function::CommonFunction`: shared metadata with one body per
source file. -/
structure CommonFunction where
  metadata : FunctionMetadata
  body1 : Str
  body2 : Str

/-! ## `check.rs`: preprocessing (`Checker::preprocess`) -/

/-- Lines 242-256 of `check.rs`: for each function of source 1, find the
first function of source 2 with an equal signature and form a
`CommonFunction` carrying source 1's metadata and both bodies. -/
def match_common (fs1 fs2 : List Function) : List CommonFunction :=
  fs1.foldl
    (fun acc func =>
      match fs2.find? (fun func2 => func.metadata.signature.sig_eq func2.metadata.signature) with
      | some func2 => acc ++ [⟨func.metadata, func.body, func2.body⟩]
      | none => acc)
    []

/-- Lines 258-268 of `check.rs`: drop from a source's function list every
record whose qualified name equals some matched pair's name. -/
def retain_unmatched (fs : List Function) (common : List CommonFunction) : List Function :=
  fs.filter (fun func => ! common.any (fun func2 => decide (func.metadata.name = func2.metadata.name)))

/-- Lines 293-298 of `check.rs`: the rewrite applied on an alias hit — the
owning type becomes the precise alias type and the qualified name becomes
`alias :: localIdentifier`. -/
def rename_with (inst : InstantiatedType) (func : CommonFunction) : CommonFunction :=
  { func with
    metadata :=
      { func.metadata with
        impl_type := some (Ty.precise inst.alias_)
        name := inst.alias_.join func.metadata.ident } }

/-- Lines 287-306 of `check.rs`, inner loop for one pair: for every
instantiated type of source 1 whose concrete type equals the pair's owning
type ignoring generics, push a renamed copy; if no hit (or no owning type),
push the pair unchanged. -/
def rewrite_pair (inst_types : List InstantiatedType) (func : CommonFunction) : List CommonFunction :=
  match func.metadata.impl_type with
  | some impl_type =>
    let pushed := inst_types.foldl
      (fun acc inst =>
        if inst.concrete.eq_ignore_generics impl_type then acc ++ [rename_with inst func]
        else acc)
      []
    if pushed.isEmpty then [func] else pushed
  | none => [func]

/-- Lines 286-306 of `check.rs`: the alias-alignment pass over all matched
pairs (the scanned alias list is `self.src1.inst_types`). -/
def alias_rewrite (inst_types : List InstantiatedType) (common : List CommonFunction) : List CommonFunction :=
  common.foldl (fun acc func => acc ++ rewrite_pair inst_types func) []

/-- Lines 331-345 of `check.rs`: the initial `unchecked_funcs` partition —
matched pairs, alias-aligned, with constructors and getters filtered out. -/
def preprocess_unchecked (fs1 fs2 : List Function) (inst1 : List InstantiatedType) :
    List CommonFunction :=
  (alias_rewrite inst1 (match_common fs1 fs2)).filter
    (fun f => ! f.metadata.is_constructor && ! f.metadata.is_getter)

/-! ## `check.rs`: the checker state machine (`Checker::run_all`) -/

/-- `check::CheckResult`: overall status (`anyhow::Result<()>`, embedded as
`Except` with the error text) plus the names that passed and failed. -/
structure CheckResult where
  status : Except Str Unit
  ok : List Path
  fail : List Path

/-- The three verification-state partitions owned by `Checker`
(`unchecked_funcs`, `verified_funcs`, `tested_funcs`).  The remaining
`Checker` fields (sources, constructors, getters, preconditions) are constant
during `run_all` and may be captured inside each component's `run` closure. -/
structure CheckerState where
  unchecked_funcs : List CommonFunction
  verified_funcs : List CommonFunction
  tested_funcs : List CommonFunction

/-- `check::Component` (trait object): whether the component is formal, and
its `run` function on the checker's mutable view.  `name`/`note` are only
logged and are omitted. -/
structure Component where
  is_formal : Bool
  run : CheckerState → CheckResult

/-- Lines 167-182 of `check.rs`, body of the per-`ok`-name loop: if some
unchecked pair bears the name, push (a clone of) the first such pair into
`verified_funcs` (formal component) or `tested_funcs` (testing component),
then retain in `unchecked_funcs` only pairs with a different name. -/
def apply_ok (is_formal : Bool) (st : CheckerState) (name : Path) : CheckerState :=
  match st.unchecked_funcs.find? (fun func2 => decide (func2.metadata.name = name)) with
  | some func =>
    let st1 :=
      if is_formal then { st with verified_funcs := st.verified_funcs ++ [func] }
      else { st with tested_funcs := st.tested_funcs ++ [func] }
    { st1 with
      unchecked_funcs := st1.unchecked_funcs.filter (fun func2 => ! decide (func2.metadata.name = name)) }
  | none => st

/-- Lines 136-217 of `check.rs`, `Checker::run_all`, instrumented: besides
the final state it returns how many components were invoked and the `fail`
names of the component that triggered the fatal stop (the inconsistencies
logged at lines 184-195; `[]` when no component stopped the run).  An
`Err` status skips the component (state unchanged); otherwise the `ok` names
are folded in and a non-empty `fail` breaks the loop. -/
def run_all : List Component → CheckerState → CheckerState × Nat × List Path
  | [], st => (st, 0, [])
  | component :: rest, st =>
    let res := component.run st
    match res.status with
    | .error _ =>
      let r := run_all rest st
      (r.1, r.2.1 + 1, r.2.2)
    | .ok _ =>
      let st1 := res.ok.foldl (apply_ok component.is_formal) st
      if res.fail.isEmpty then
        let r := run_all rest st1
        (r.1, r.2.1 + 1, r.2.2)
      else (st1, 1, res.fail)

/-- Lines 207-216 of `check.rs`: after the loop the run reports success iff
no unchecked function remains. -/
def run_reports_success (components : List Component) (st : CheckerState) : Bool :=
  (run_all components st).1.unchecked_funcs.isEmpty

/-- View used to state the partition invariant: the checker state after the
first `k` components of the configured sequence have been processed, starting
from the initial state produced by `Checker::new`/`preprocess` (all
non-support matched pairs unchecked, nothing verified or tested). -/
def checker_states_after (fs1 fs2 : List Function) (inst1 : List InstantiatedType)
    (cs : List Component) (k : Nat) : CheckerState :=
  (run_all (cs.take k) ⟨preprocess_unchecked fs1 fs2 inst1, [], []⟩).1




/-! ## `generate.rs`: the function classifier -/

/-- Whether a `syn::FnArg` is a `self` receiver
(`matches!(arg, syn::FnArg::Receiver(_))`). -/
def FnArg.is_receiver : FnArg → Bool
  | .receiver => true
  | .typed _ => false

/-- Rust `impl_type.as_ref() == Some(t)` on the optional owning type. -/
def opt_impl_is (o : Option Ty) (t : Ty) : Bool :=
  match o with
  | some u => Ty.beq u t
  | none => false

/-- `BTreeMap<Type, CommonFunction>::insert`, embedded on a key-unique
association list: any previous entry for the key is dropped and the new
binding appended (`insert` overwrites; only the map's contents matter to the
claims, not the `BTreeMap` key order). -/
def map_insert (k : Ty) (v : CommonFunction) (m : List (Ty × CommonFunction)) :
    List (Ty × CommonFunction) :=
  m.filter (fun kv => ! Ty.beq kv.1 k) ++ [(k, v)]

/-- `BTreeMap::contains_key`. -/
def map_contains (k : Ty) (m : List (Ty × CommonFunction)) : Bool :=
  m.any (fun kv => Ty.beq kv.1 k)

/-- `generate::FunctionClassifier`: free functions, methods, and the
constructor/getter maps keyed by owning type. -/
structure FunctionClassifier where
  functions : List CommonFunction
  methods : List CommonFunction
  constructors : List (Ty × CommonFunction)
  getters : List (Ty × CommonFunction)

/-- Loop body of `FunctionClassifier::classify` (lines 38-67 of
`generate.rs`): a pair named `verieasy_new` (resp. `verieasy_get`) inside an
impl goes to the constructor (resp. getter) map keyed by owning type;
otherwise a receiver parameter makes a method, and everything else —
including every pair without an owning type — is a free function. -/
def classify_step (res : FunctionClassifier) (func : CommonFunction) : FunctionClassifier :=
  match func.metadata.impl_type with
  | some impl_type =>
    if func.metadata.ident = "verieasy_new".toList then
      { res with constructors := map_insert impl_type func res.constructors }
    else if func.metadata.ident = "verieasy_get".toList then
      { res with getters := map_insert impl_type func res.getters }
    else if func.metadata.signature.inputs.any FnArg.is_receiver then
      { res with methods := res.methods ++ [func] }
    else
      { res with functions := res.functions ++ [func] }
  | none => { res with functions := res.functions ++ [func] }

/-- Lines 31-70 of `generate.rs`, `FunctionClassifier::classify`: fold the
loop body over the matched pairs, starting from four empty buckets. -/
def FunctionClassifier.classify (functions : List CommonFunction) : FunctionClassifier :=
  functions.foldl classify_step ⟨[], [], [], []⟩

/-- `CommonFunction::impl_type`, the unchecked (panicking) accessor; the
classifier only calls it on methods, which always carry an owning type, so
the default is never reached from classifier states. -/
def CommonFunction.impl_ty (f : CommonFunction) : Ty :=
  f.metadata.impl_type.getD (Ty.precise Path.empty)

/-- The `unused_types` list of
`FunctionClassifier::remove_unused_constructors_and_getters` (lines 76-85 of
`generate.rs`): constructor-map keys owning no method. -/
def unused_constructor_types (cl : FunctionClassifier) : List Ty :=
  (cl.constructors.map Prod.fst).filter
    (fun t => ! cl.methods.any (fun m => opt_impl_is m.metadata.impl_type t))

/-- Lines 75-96 of `generate.rs`,
`FunctionClassifier::remove_unused_constructors_and_getters`: collect the
constructor-map keys owning no method, then remove those keys from both the
constructor and the getter map. -/
def FunctionClassifier.remove_unused_constructors_and_getters
    (cl : FunctionClassifier) : FunctionClassifier :=
  { cl with
    constructors := cl.constructors.filter
      (fun kv => ! (unused_constructor_types cl).any (fun t => Ty.beq kv.1 t))
    getters := cl.getters.filter
      (fun kv => ! (unused_constructor_types cl).any (fun t => Ty.beq kv.1 t)) }

/-- The `no_constructor_types` list of
`FunctionClassifier::remove_methods_without_constructors` (lines 102-109 of
`generate.rs`): owning types of methods with no constructor, deduplicated in
first-seen order. -/
def missing_constructor_types (cl : FunctionClassifier) : List Ty :=
  cl.methods.foldl
    (fun acc m =>
      if ! map_contains m.impl_ty cl.constructors && ! acc.any (fun t => Ty.beq t m.impl_ty) then
        acc ++ [m.impl_ty]
      else acc)
    []

/-- Lines 101-120 of `generate.rs`,
`FunctionClassifier::remove_methods_without_constructors`: collect the
owning types of methods with no constructor, then retain only methods whose
owning type is not among them. -/
def FunctionClassifier.remove_methods_without_constructors
    (cl : FunctionClassifier) : FunctionClassifier :=
  { cl with
    methods := cl.methods.filter
      (fun m => ! (missing_constructor_types cl).any (fun t => opt_impl_is m.metadata.impl_type t)) }

/-- Lines 137-151 of `generate.rs`, the classifier pipeline run by
`HarnessGenerator::new`: classify, then both pruning passes in order. -/
def classify_for_harness (functions : List CommonFunction) : FunctionClassifier :=
  ((FunctionClassifier.classify functions).remove_unused_constructors_and_getters).remove_methods_without_constructors

/-! ## `components/pbt.rs` / `components/df.rs`: `MISMATCH` output analysis -/

/-- Match of the regex `MISMATCH:\s*(\S+)` anchored at the start of `s`:
after the literal, skip whitespace greedily; the capture is the maximal
non-empty run of non-whitespace (no shorter run can be followed by a match,
so greedy matching needs no backtracking here). -/
def mismatch_at (s : Str) : Option Str :=
  if "MISMATCH:".toList.isPrefixOf s then
    let rest := (s.drop "MISMATCH:".toList.length).dropWhile Char.isWhitespace
    let w := rest.takeWhile (fun c => ! c.isWhitespace)
    if w.isEmpty then none else some w
  else none

/-- `Regex::captures` for `MISMATCH:\s*(\S+)`: first position (leftmost
match) of the line where `mismatch_at` succeeds. -/
def find_mismatch : Str → Option Str
  | [] => none
  | c :: rest =>
    match mismatch_at (c :: rest) with
    | some w => some w
    | none => find_mismatch rest

/-- `Vec::swap_remove(i)`: overwrite position `i` with the last element and
pop the last element (only ever called with `i` in bounds). -/
def swap_remove (l : List Path) (i : Nat) : List Path :=
  match l.getLast? with
  | some last => (l.set i last).dropLast
  | none => l

/-- One line of the loop in `analyze_pbt_output` / `analyze_fuzzer_output`
(lines 262-283 of `components/pbt.rs`, lines 321-342 of
`components/df.rs`): on a `MISMATCH` capture, `swap_remove` the first `ok`
entry whose rendered name equals the captured name. -/
def mismatch_step (ok : List Path) (line : Str) : List Path :=
  match find_mismatch line with
  | some func_name =>
    match ok.findIdx? (fun f => decide (f.to_string = func_name)) with
    | some i => swap_remove ok i
    | none => ok
  | none => ok

/-- `PropertyBasedTesting::analyze_pbt_output` and
`DifferentialFuzzing::analyze_fuzzer_output` (identical bodies): start from
`ok = functions`, `fail = []`, status `Ok`, and process the engine-output
file line by line; `fail` is never pushed to. -/
def analyze_mismatch_output (functions : List Path) (lines : List Str) : CheckResult :=
  { status := .ok (), ok := lines.foldl mismatch_step functions, fail := [] }

/-! ## `components/kani.rs`: formal-engine report analysis -/

/-- The character class `[0-9a-zA-Z_]` of the Kani harness-header regex. -/
def is_word_char (c : Char) : Bool := c.isAlphanum || c = '_'

/-- Match of the regex `Checking harness check_([0-9a-zA-Z_]+)\.` anchored at
the start of `s`: the literal prefix, then the maximal non-empty run of word
characters, then a literal dot (word characters never match `.`, so the
greedy run needs no backtracking). -/
def header_at (s : Str) : Option Str :=
  if "Checking harness check_".toList.isPrefixOf s then
    let rest := s.drop "Checking harness check_".toList.length
    let w := rest.takeWhile is_word_char
    if w.isEmpty then none
    else
      match rest.dropWhile is_word_char with
      | '.' :: _ => some w
      | _ => none
  else none

/-- `Regex::captures` for the harness-header pattern: leftmost position of
the line where `header_at` succeeds. -/
def find_header : Str → Option Str
  | [] => none
  | c :: rest =>
    match header_at (c :: rest) with
    | some w => some w
    | none => find_header rest

/-- Rust `str::contains` (substring test) for the status-marker checks. -/
def contains_sub (needle : Str) : Str → Bool
  | [] => needle.isEmpty
  | c :: rest => needle.isPrefixOf (c :: rest) || contains_sub needle rest

/-- Rust `str::replace("___", "::")` (leftmost, non-overlapping) applied to
the flattened harness name. -/
def replace_unders : Str → Str
  | '_' :: '_' :: '_' :: rest => ':' :: ':' :: replace_unders rest
  | c :: rest => c :: replace_unders rest
  | [] => []

/-- One line of the loop in `Kani::analyze_kani_output` (lines 234-259 of
`components/kani.rs`); the state is the pending `func_name` (already
un-flattened, as in the code) and the `ok` list.  A header match overwrites
the pending name; a success-marker line with a pending name pushes it (and
`take`s it); a failure-marker line clears it; anything else changes
nothing. -/
def kani_step (st : Option Str × List Path) (line : Str) : Option Str × List Path :=
  let fn1 : Option Str :=
    match find_header line with
    | some w => some (replace_unders w)
    | none => st.1
  match fn1 with
  | some n =>
    if contains_sub "VERIFICATION:- SUCCESSFUL".toList line then
      (none, st.2 ++ [Path.from_str n])
    else if contains_sub "VERIFICATION:- FAILED".toList line then (none, st.2)
    else (some n, st.2)
  | none => (none, st.2)

/-- `Kani::analyze_kani_output`: fold the report's lines; `fail` is never
pushed to and the status is `Ok`. -/
def analyze_kani_output (lines : List Str) : CheckResult :=
  { status := .ok (), ok := (lines.foldl kani_step (none, [])).2, fail := [] }


/-! # Theorems

General helper lemmas first, then one theorem per claim (with its
counterexample and witness where applicable). -/

theorem Ty.beq_iff (a b : Ty) : Ty.beq a b = true ↔ a = b := by
  refine Ty.beq.induct (fun a b => Ty.beq a b = true ↔ a = b)
    (fun xs ys => Ty.beqList xs ys = true ↔ xs = ys)
    ?_ ?_ ?_ ?_ ?_ ?_ a b
  · intro p1 p2; simp [Ty.beq]
  · intro p1 g1 p2 g2 ih
    simp [Ty.beq, ih]
  · intro t x h1 h2
    cases t <;> cases x
    · exact (h2 _ _ _ _ rfl rfl).elim
    · simp [Ty.beq]
    · simp [Ty.beq]
    · exact (h1 _ _ rfl rfl).elim
  · simp [Ty.beqList]
  · intro t ts u us ih1 ih2
    simp [Ty.beqList, ih1, ih2]
  · intro t x h1 h2
    cases t <;> cases x
    · exact (h1 rfl rfl).elim
    · simp [Ty.beqList]
    · simp [Ty.beqList]
    · exact (h2 _ _ _ _ rfl rfl).elim

/-! ## Claim C10: `Path` rendering/parsing round-trip -/

theorem splitColons_ne_nil (s : Str) : splitColons s ≠ [] := by
  induction s using splitColons.induct with
  | case1 => simp [splitColons]
  | case2 c => simp [splitColons]
  | case3 c1 c2 rest h ih =>
    obtain ⟨e1, e2⟩ := h
    subst e1; subst e2
    simp [splitColons]
  | case4 c1 c2 rest h hnil ih => exact absurd hnil ih
  | case5 c1 c2 rest h p ps hcons ih =>
    simp only [splitColons]
    rw [if_neg h, hcons]
    simp

theorem joinSep_cons_head (sep : Str) (c : Char) (p : Str) (ps : List Str) :
    joinSep sep ((c :: p) :: ps) = c :: joinSep sep (p :: ps) := by
  cases ps <;> simp [joinSep]

theorem joinSep_splitColons (s : Str) : joinSep [':', ':'] (splitColons s) = s := by
  induction s using splitColons.induct with
  | case1 => rfl
  | case2 c => rfl
  | case3 c1 c2 rest h ih =>
    obtain ⟨e1, e2⟩ := h
    subst e1; subst e2
    have hsplit : splitColons (':' :: ':' :: rest) = [] :: splitColons rest := by
      simp [splitColons]
    rw [hsplit]
    obtain ⟨p, ps, hps⟩ : ∃ p ps, splitColons rest = p :: ps := by
      cases hsp : splitColons rest with
      | nil => exact absurd hsp (splitColons_ne_nil rest)
      | cons p ps => exact ⟨p, ps, rfl⟩
    rw [hps] at ih ⊢
    simp [joinSep, ih]
  | case4 c1 c2 rest h hnil ih => exact absurd hnil (splitColons_ne_nil (c2 :: rest))
  | case5 c1 c2 rest h p ps hcons ih =>
    simp only [splitColons]
    rw [if_neg h, hcons]
    rw [hcons] at ih
    show joinSep [':', ':'] ((c1 :: p) :: ps) = c1 :: c2 :: rest
    rw [joinSep_cons_head, ih]

theorem splitColons_no_colons (x : Str) (h : hasColons x = false) : splitColons x = [x] := by
  induction x using splitColons.induct with
  | case1 => rfl
  | case2 c => rfl
  | case3 c1 c2 rest hif ih =>
    exfalso
    obtain ⟨e1, e2⟩ := hif
    subst e1; subst e2
    simp [hasColons] at h
  | case4 c1 c2 rest hif hnil ih => exact absurd hnil (splitColons_ne_nil (c2 :: rest))
  | case5 c1 c2 rest hif p ps hcons ih =>
    have h2 : hasColons (c2 :: rest) = false := by
      simp only [hasColons, Bool.or_eq_false_iff] at h
      exact h.2
    have hx := ih h2
    rw [hcons] at hx
    injection hx with hp hps
    simp only [splitColons]
    rw [if_neg hif, hcons]
    subst hp; subst hps
    rfl

theorem splitColons_append_sep (x : Str) :
    ∀ t, hasColons x = false → x.getLast? ≠ some ':' →
      splitColons (x ++ ':' :: ':' :: t) = x :: splitColons t := by
  induction x with
  | nil =>
    intro t _ _
    simp [splitColons]
  | cons c x' ih =>
    intro t h1 h2
    cases x' with
    | nil =>
      have hc : c ≠ ':' := by
        intro e
        exact h2 (by simp [e])
      show splitColons (c :: ':' :: ':' :: t) = [c] :: splitColons t
      simp [splitColons, hc]
    | cons d x'' =>
      have hdisj : (decide (c = ':') && decide (d = ':')) = false ∧ hasColons (d :: x'') = false := by
        simpa only [hasColons, Bool.or_eq_false_iff] using h1
      have hne : ¬(c = ':' ∧ d = ':') := by
        intro ⟨e1, e2⟩
        simp [e1, e2] at hdisj
      have h2' : (d :: x'').getLast? ≠ some ':' := by
        simpa only [List.getLast?_cons_cons] using h2
      have ihh := ih t hdisj.2 h2'
      show splitColons (c :: ((d :: x'') ++ ':' :: ':' :: t)) = (c :: d :: x'') :: splitColons t
      simp only [List.cons_append] at ihh ⊢
      simp only [splitColons]
      rw [if_neg hne, ihh]

/-- Claim C10 (amended): rendering a parsed string is the identity for every
string; parsing a rendered non-empty path recovers it when every segment is
non-empty, contains no `"::"` substring, and no segment before the last ends
in `':'`; and the empty path renders and re-parses to the one-empty-segment
path, not to itself. -/
theorem claim_C10_path_round_trip :
    (∀ s : Str, (Path.from_str s).to_string = s) ∧
    (∀ l : List Str, l ≠ [] → (∀ x ∈ l, x ≠ [] ∧ hasColons x = false) →
      (∀ x ∈ l.dropLast, x.getLast? ≠ some ':') →
      Path.from_str (Path.to_string ⟨l⟩) = ⟨l⟩) ∧
    Path.from_str (Path.to_string Path.empty) = ⟨[[]]⟩ := by
  refine ⟨fun s => joinSep_splitColons s, ?_, rfl⟩
  intro l
  induction l with
  | nil => intro h; exact absurd rfl h
  | cons x l' ih =>
    intro _ hseg hlast
    cases l' with
    | nil =>
      have hx := (hseg x (by simp)).2
      simp [Path.from_str, Path.to_string, joinSep, splitColons_no_colons x hx]
    | cons y l'' =>
      have hx := hseg x (by simp)
      have hxl : x.getLast? ≠ some ':' := hlast x (by simp)
      have ihh := ih (by simp) (fun z hz => hseg z (by simp [hz]))
        (fun z hz => hlast z (by simp; exact Or.inr (by simpa using hz)))
      have hjoin : joinSep [':', ':'] (x :: y :: l'') =
          x ++ ':' :: ':' :: joinSep [':', ':'] (y :: l'') := by
        simp [joinSep]
      simp only [Path.to_string, Path.from_str] at ihh ⊢
      rw [hjoin, splitColons_append_sep x _ hx.2 hxl]
      have hseq : splitColons (joinSep [':', ':'] (y :: l'')) = y :: l'' :=
        congrArg Path.segs ihh
      rw [hseq]

/-- Claim C10, counterexample to the claim as stated: the path with segments
`"a:"` and `"b"` is non-empty, has non-empty segments, none containing the
substring `"::"`, and yet rendering it (`"a:::b"`) and parsing back yields
the path with segments `"a"` and `":b"`. -/
theorem claim_C10_counterexample :
    ([['a', ':'], ['b']] : List Str) ≠ [] ∧
    (∀ x ∈ ([['a', ':'], ['b']] : List Str), x ≠ [] ∧ hasColons x = false) ∧
    Path.from_str (Path.to_string ⟨[['a', ':'], ['b']]⟩) ≠ (⟨[['a', ':'], ['b']]⟩ : Path) := by
  exact ⟨by decide, by decide, by decide⟩

theorem claim_C10_witness :
    (([['a'], ['b']] : List Str) ≠ [] ∧
      (∀ x ∈ ([['a'], ['b']] : List Str), x ≠ [] ∧ hasColons x = false) ∧
      (∀ x ∈ ([['a'], ['b']] : List Str).dropLast, x.getLast? ≠ some ':')) ∧
    Path.from_str (Path.to_string ⟨[['a'], ['b']]⟩) = (⟨[['a'], ['b']]⟩ : Path) :=
  ⟨⟨by decide, by decide, by decide⟩,
    claim_C10_path_round_trip.2.1 [['a'], ['b']] (by decide) (by decide) (by decide)⟩


/-! ## Claims C8 and C2: the checker state machine -/

theorem apply_ok_unchecked_mem (b : Bool) (st : CheckerState) (n : Path) (f : CommonFunction)
    (hf : f ∈ st.unchecked_funcs) (hne : f.metadata.name ≠ n) :
    f ∈ (apply_ok b st n).unchecked_funcs := by
  unfold apply_ok
  cases hfind : st.unchecked_funcs.find? (fun func2 => decide (func2.metadata.name = n)) with
  | none => exact hf
  | some g =>
    cases b <;> · simp only []
                  exact List.mem_filter.mpr ⟨hf, by simpa using hne⟩

theorem foldl_apply_ok_unchecked_mem (b : Bool) (names : List Path) (st : CheckerState)
    (f : CommonFunction) (hf : f ∈ st.unchecked_funcs) (hn : f.metadata.name ∉ names) :
    f ∈ (names.foldl (apply_ok b) st).unchecked_funcs := by
  induction names generalizing st with
  | nil => exact hf
  | cons n rest ih =>
    simp only [List.foldl_cons]
    have h1 : f.metadata.name ≠ n := fun e => hn (by simp [e])
    exact ih (apply_ok b st n) (apply_ok_unchecked_mem b st n f hf h1) (fun e => hn (by simp [e]))

/-- Claim C8: a component whose run result carries an infrastructure-error
status is skipped — whatever `ok` and `fail` lists the result also carries,
the partition handed to the next configured component is the unchanged
current state, the remaining components still run, and the run's outcome
(final state, invocation count, inconsistencies) is that of the remaining
components with this one merely counted as invoked. -/
theorem claim_C8_infrastructure_error_skips (c : Component) (rest : List Component)
    (st : CheckerState) (e : Str) (h : (c.run st).status = .error e) :
    run_all (c :: rest) st =
      ((run_all rest st).1, (run_all rest st).2.1 + 1, (run_all rest st).2.2) := by
  simp only [run_all]
  rw [h]

theorem claim_C8_witness :
    ((Component.mk true (fun _ => ⟨.error ['b'], [⟨[['f']]⟩], [⟨[['f']]⟩]⟩)).run
        ⟨[⟨⟨⟨[['f']]⟩, ⟨['f'], [], none⟩, none, none⟩, ['x'], ['y']⟩], [], []⟩).status =
      .error ['b'] ∧
    run_all
        [Component.mk true (fun _ => ⟨.error ['b'], [⟨[['f']]⟩], [⟨[['f']]⟩]⟩),
          Component.mk false (fun _ => ⟨.ok (), [], []⟩)]
        ⟨[⟨⟨⟨[['f']]⟩, ⟨['f'], [], none⟩, none, none⟩, ['x'], ['y']⟩], [], []⟩ =
      (⟨[⟨⟨⟨[['f']]⟩, ⟨['f'], [], none⟩, none, none⟩, ['x'], ['y']⟩], [], []⟩, 2, []) :=
  ⟨rfl, by
    rw [claim_C8_infrastructure_error_skips _ _ _ ['b'] rfl]
    rfl⟩

/-- Claim C2: when a component's result has ok status and a non-empty `fail`
list, the run terminates right after folding in that component's `ok` list —
the final state is that fold, exactly this one component (of the remaining
sequence) is invoked, and all its fail names are the reported
inconsistencies; every unchecked pair not named in the component's `ok` list
stays in `Unchecked`, and if any such pair exists the overall run reports
failure. -/
theorem claim_C2_early_stop (c : Component) (rest : List Component) (st : CheckerState)
    (hok : (c.run st).status = .ok ()) (hfail : (c.run st).fail ≠ []) :
    run_all (c :: rest) st =
      ((c.run st).ok.foldl (apply_ok c.is_formal) st, 1, (c.run st).fail) ∧
    (∀ f ∈ st.unchecked_funcs, f.metadata.name ∉ (c.run st).ok →
      f ∈ (run_all (c :: rest) st).1.unchecked_funcs) ∧
    ((∃ f ∈ st.unchecked_funcs, f.metadata.name ∉ (c.run st).ok) →
      run_reports_success (c :: rest) st = false) := by
  have hfe : (c.run st).fail.isEmpty = false := by
    cases hf2 : (c.run st).fail with
    | nil => exact absurd hf2 hfail
    | cons a l => rfl
  have hrun : run_all (c :: rest) st =
      ((c.run st).ok.foldl (apply_ok c.is_formal) st, 1, (c.run st).fail) := by
    simp only [run_all]
    rw [hok]
    simp [hfe]
  refine ⟨hrun, ?_, ?_⟩
  · intro f hf hname
    rw [hrun]
    exact foldl_apply_ok_unchecked_mem c.is_formal (c.run st).ok st f hf hname
  · rintro ⟨f, hf, hname⟩
    have hmem : f ∈ (run_all (c :: rest) st).1.unchecked_funcs := by
      rw [hrun]
      exact foldl_apply_ok_unchecked_mem c.is_formal (c.run st).ok st f hf hname
    unfold run_reports_success
    cases hu : (run_all (c :: rest) st).1.unchecked_funcs with
    | nil => rw [hu] at hmem; cases hmem
    | cons a l => rfl


theorem claim_C2_witness :
    ((Component.mk false (fun _ => ⟨.ok (), [], [⟨[['f', '2']]⟩]⟩)).run
        ⟨[⟨⟨⟨[['f', '2']]⟩, ⟨['f', '2'], [], none⟩, none, none⟩, ['a'], ['b']⟩,
          ⟨⟨⟨[['f', '3']]⟩, ⟨['f', '3'], [], none⟩, none, none⟩, ['a'], ['b']⟩],
          [⟨⟨⟨[['f', '1']]⟩, ⟨['f', '1'], [], none⟩, none, none⟩, ['a'], ['b']⟩], []⟩).status =
      .ok () ∧
    ((Component.mk false (fun _ => ⟨.ok (), [], [⟨[['f', '2']]⟩]⟩)).run
        ⟨[⟨⟨⟨[['f', '2']]⟩, ⟨['f', '2'], [], none⟩, none, none⟩, ['a'], ['b']⟩,
          ⟨⟨⟨[['f', '3']]⟩, ⟨['f', '3'], [], none⟩, none, none⟩, ['a'], ['b']⟩],
          [⟨⟨⟨[['f', '1']]⟩, ⟨['f', '1'], [], none⟩, none, none⟩, ['a'], ['b']⟩], []⟩).fail ≠ [] ∧
    run_all
        [Component.mk false (fun _ => ⟨.ok (), [], [⟨[['f', '2']]⟩]⟩),
          Component.mk true (fun _ => ⟨.ok (), [⟨[['f', '3']]⟩], []⟩)]
        ⟨[⟨⟨⟨[['f', '2']]⟩, ⟨['f', '2'], [], none⟩, none, none⟩, ['a'], ['b']⟩,
          ⟨⟨⟨[['f', '3']]⟩, ⟨['f', '3'], [], none⟩, none, none⟩, ['a'], ['b']⟩],
          [⟨⟨⟨[['f', '1']]⟩, ⟨['f', '1'], [], none⟩, none, none⟩, ['a'], ['b']⟩], []⟩ =
      (⟨[⟨⟨⟨[['f', '2']]⟩, ⟨['f', '2'], [], none⟩, none, none⟩, ['a'], ['b']⟩,
          ⟨⟨⟨[['f', '3']]⟩, ⟨['f', '3'], [], none⟩, none, none⟩, ['a'], ['b']⟩],
          [⟨⟨⟨[['f', '1']]⟩, ⟨['f', '1'], [], none⟩, none, none⟩, ['a'], ['b']⟩], []⟩, 1,
        [⟨[['f', '2']]⟩]) ∧
    run_all
        [Component.mk true (fun _ => ⟨.ok (), [⟨[['f', '1']]⟩], []⟩),
          Component.mk false (fun _ => ⟨.ok (), [], [⟨[['f', '2']]⟩]⟩),
          Component.mk true (fun _ => ⟨.ok (), [⟨[['f', '3']]⟩], []⟩)]
        ⟨[⟨⟨⟨[['f', '1']]⟩, ⟨['f', '1'], [], none⟩, none, none⟩, ['a'], ['b']⟩,
          ⟨⟨⟨[['f', '2']]⟩, ⟨['f', '2'], [], none⟩, none, none⟩, ['a'], ['b']⟩,
          ⟨⟨⟨[['f', '3']]⟩, ⟨['f', '3'], [], none⟩, none, none⟩, ['a'], ['b']⟩], [], []⟩ =
      (⟨[⟨⟨⟨[['f', '2']]⟩, ⟨['f', '2'], [], none⟩, none, none⟩, ['a'], ['b']⟩,
          ⟨⟨⟨[['f', '3']]⟩, ⟨['f', '3'], [], none⟩, none, none⟩, ['a'], ['b']⟩],
          [⟨⟨⟨[['f', '1']]⟩, ⟨['f', '1'], [], none⟩, none, none⟩, ['a'], ['b']⟩], []⟩, 2,
        [⟨[['f', '2']]⟩]) ∧
    run_reports_success
        [Component.mk true (fun _ => ⟨.ok (), [⟨[['f', '1']]⟩], []⟩),
          Component.mk false (fun _ => ⟨.ok (), [], [⟨[['f', '2']]⟩]⟩),
          Component.mk true (fun _ => ⟨.ok (), [⟨[['f', '3']]⟩], []⟩)]
        ⟨[⟨⟨⟨[['f', '1']]⟩, ⟨['f', '1'], [], none⟩, none, none⟩, ['a'], ['b']⟩,
          ⟨⟨⟨[['f', '2']]⟩, ⟨['f', '2'], [], none⟩, none, none⟩, ['a'], ['b']⟩,
          ⟨⟨⟨[['f', '3']]⟩, ⟨['f', '3'], [], none⟩, none, none⟩, ['a'], ['b']⟩], [], []⟩ = false :=
  ⟨rfl, List.cons_ne_nil _ _,
    (claim_C2_early_stop (Component.mk false (fun _ => ⟨.ok (), [], [⟨[['f', '2']]⟩]⟩))
        [Component.mk true (fun _ => ⟨.ok (), [⟨[['f', '3']]⟩], []⟩)]
        ⟨[⟨⟨⟨[['f', '2']]⟩, ⟨['f', '2'], [], none⟩, none, none⟩, ['a'], ['b']⟩,
          ⟨⟨⟨[['f', '3']]⟩, ⟨['f', '3'], [], none⟩, none, none⟩, ['a'], ['b']⟩],
          [⟨⟨⟨[['f', '1']]⟩, ⟨['f', '1'], [], none⟩, none, none⟩, ['a'], ['b']⟩], []⟩
        rfl (List.cons_ne_nil _ _)).1,
    by rfl, rfl⟩


/-! ## Claim C1: the partition invariant -/

theorem perm_cons_filter_ne (n : Path) (f : CommonFunction) :
    ∀ l : List CommonFunction, f ∈ l → f.metadata.name = n →
      (l.map (fun g => g.metadata.name)).Nodup →
      l.Perm (f :: l.filter (fun g => ! decide (g.metadata.name = n))) := by
  intro l
  induction l with
  | nil => intro hf; cases hf
  | cons a t ih =>
    intro hf hfn hnd
    have hndt : (t.map (fun g => g.metadata.name)).Nodup := (List.nodup_cons.mp (by simpa using hnd)).2
    have hna : a.metadata.name ∉ t.map (fun g => g.metadata.name) :=
      (List.nodup_cons.mp (by simpa using hnd)).1
    by_cases han : a.metadata.name = n
    · have haf : a = f := by
        rcases List.mem_cons.mp hf with h | hft
        · exact h.symm
        · exact absurd (by rw [han, ← hfn]; exact List.mem_map_of_mem _ hft) hna
      subst haf
      have htf : t.filter (fun g => ! decide (g.metadata.name = n)) = t := by
        apply List.filter_eq_self.mpr
        intro g hg
        have : g.metadata.name ≠ n := by
          intro e
          exact hna (by rw [han, ← e]; exact List.mem_map_of_mem _ hg)
        simp [this]
      simp [List.filter_cons, han, htf]
    · have hft : f ∈ t := by
        rcases List.mem_cons.mp hf with h | h
        · exact absurd (h ▸ hfn) han
        · exact h
      have ihh := ih hft hfn hndt
      have hfa : (! decide (a.metadata.name = n)) = true := by simp [han]
      have hfc : (a :: t).filter (fun g => ! decide (g.metadata.name = n)) =
          a :: t.filter (fun g => ! decide (g.metadata.name = n)) := by
        simp [List.filter_cons, hfa]
      rw [hfc]
      exact (ihh.cons a).trans (List.Perm.swap f a _)

theorem apply_ok_found_formal (st : CheckerState) (n : Path) (f : CommonFunction)
    (hfind : st.unchecked_funcs.find? (fun func2 => decide (func2.metadata.name = n)) = some f) :
    apply_ok true st n =
      ⟨st.unchecked_funcs.filter (fun func2 => ! decide (func2.metadata.name = n)),
        st.verified_funcs ++ [f], st.tested_funcs⟩ := by
  simp [apply_ok, hfind]

theorem apply_ok_found_testing (st : CheckerState) (n : Path) (f : CommonFunction)
    (hfind : st.unchecked_funcs.find? (fun func2 => decide (func2.metadata.name = n)) = some f) :
    apply_ok false st n =
      ⟨st.unchecked_funcs.filter (fun func2 => ! decide (func2.metadata.name = n)),
        st.verified_funcs, st.tested_funcs ++ [f]⟩ := by
  simp [apply_ok, hfind]

theorem apply_ok_perm (b : Bool) (st : CheckerState) (n : Path) (u0 : List CommonFunction)
    (hperm : (st.unchecked_funcs ++ (st.verified_funcs ++ st.tested_funcs)).Perm u0)
    (hnd : (u0.map (fun f => f.metadata.name)).Nodup) :
    ((apply_ok b st n).unchecked_funcs ++
      ((apply_ok b st n).verified_funcs ++ (apply_ok b st n).tested_funcs)).Perm u0 := by
  have hndall : ((st.unchecked_funcs ++ (st.verified_funcs ++ st.tested_funcs)).map
      (fun f => f.metadata.name)).Nodup :=
    ((hperm.map (fun f => f.metadata.name)).nodup_iff).mpr hnd
  have hndunc : (st.unchecked_funcs.map (fun f => f.metadata.name)).Nodup := by
    refine List.Nodup.sublist ?_ hndall
    exact (List.sublist_append_left _ _).map _
  cases hfind : st.unchecked_funcs.find? (fun func2 => decide (func2.metadata.name = n)) with
  | none =>
    simpa only [apply_ok, hfind] using hperm
  | some f =>
    have hfmem : f ∈ st.unchecked_funcs := List.mem_of_find?_eq_some hfind
    have hfname : f.metadata.name = n := by
      have := List.find?_some hfind
      simpa using this
    have hu_perm := perm_cons_filter_ne n f st.unchecked_funcs hfmem hfname hndunc
    cases b with
    | true =>
      rw [apply_ok_found_formal st n f hfind]
      show ((st.unchecked_funcs.filter fun func2 => ! decide (func2.metadata.name = n)) ++
        ((st.verified_funcs ++ [f]) ++ st.tested_funcs)).Perm u0
      refine List.Perm.trans ?_ hperm
      have e1 : (st.verified_funcs ++ [f]) ++ st.tested_funcs =
          st.verified_funcs ++ f :: st.tested_funcs := by simp
      rw [e1]
      refine List.Perm.trans (List.Perm.append_left _ List.perm_middle) ?_
      refine List.Perm.trans List.perm_middle ?_
      simpa using (hu_perm.symm).append_right (st.verified_funcs ++ st.tested_funcs)
    | false =>
      rw [apply_ok_found_testing st n f hfind]
      show ((st.unchecked_funcs.filter fun func2 => ! decide (func2.metadata.name = n)) ++
        (st.verified_funcs ++ (st.tested_funcs ++ [f]))).Perm u0
      refine List.Perm.trans ?_ hperm
      have e1 : st.verified_funcs ++ (st.tested_funcs ++ [f]) =
          (st.verified_funcs ++ st.tested_funcs) ++ [f] := by simp
      rw [e1]
      refine List.Perm.trans (List.Perm.append_left _ (List.perm_append_singleton _ _)) ?_
      refine List.Perm.trans List.perm_middle ?_
      simpa using (hu_perm.symm).append_right (st.verified_funcs ++ st.tested_funcs)

theorem foldl_apply_ok_perm (b : Bool) (names : List Path) (u0 : List CommonFunction)
    (hnd : (u0.map (fun f => f.metadata.name)).Nodup) :
    ∀ st : CheckerState,
      (st.unchecked_funcs ++ (st.verified_funcs ++ st.tested_funcs)).Perm u0 →
      ((names.foldl (apply_ok b) st).unchecked_funcs ++
        ((names.foldl (apply_ok b) st).verified_funcs ++
          (names.foldl (apply_ok b) st).tested_funcs)).Perm u0 := by
  induction names with
  | nil => intro st h; exact h
  | cons n rest ih =>
    intro st h
    simp only [List.foldl_cons]
    exact ih (apply_ok b st n) (apply_ok_perm b st n u0 h hnd)

theorem run_all_perm (u0 : List CommonFunction)
    (hnd : (u0.map (fun f => f.metadata.name)).Nodup) :
    ∀ (cs : List Component) (st : CheckerState),
      (st.unchecked_funcs ++ (st.verified_funcs ++ st.tested_funcs)).Perm u0 →
      (((run_all cs st).1.unchecked_funcs ++
        ((run_all cs st).1.verified_funcs ++ (run_all cs st).1.tested_funcs))).Perm u0 := by
  intro cs
  induction cs with
  | nil => intro st h; exact h
  | cons c rest ih =>
    intro st h
    cases hst : (c.run st).status with
    | error e =>
      simp only [run_all, hst]
      exact ih st h
    | ok u =>
      have hfold := foldl_apply_ok_perm c.is_formal (c.run st).ok u0 hnd st h
      cases hf : (c.run st).fail.isEmpty with
      | true =>
        simp only [run_all, hst, hf, if_pos rfl]
        exact ih _ hfold
      | false =>
        simp only [run_all, hst, hf]
        simpa using hfold


/-- Claim C1 (amended): provided the qualified names of the initial
non-support matched pairs are pairwise distinct, then at every point of
`run_all` (after any number `k` of component steps) the lists Unchecked,
Verified and Tested together are a permutation of the initial non-support
matched-pair list (so no pair is deleted or duplicated), the three lists are
pairwise disjoint, and no constructor or getter is ever a member of any of
them.  Distinctness can fail after alias rewriting (two generic
instantiations collapsing to one alias name), and then an `ok` verdict
deletes all but one same-named pair — see the counterexample. -/
theorem claim_C1_partition_invariant (fs1 fs2 : List Function) (inst1 : List InstantiatedType)
    (cs : List Component) (k : Nat)
    (hnd : ((preprocess_unchecked fs1 fs2 inst1).map (fun f => f.metadata.name)).Nodup) :
    (((checker_states_after fs1 fs2 inst1 cs k).unchecked_funcs ++
      ((checker_states_after fs1 fs2 inst1 cs k).verified_funcs ++
        (checker_states_after fs1 fs2 inst1 cs k).tested_funcs)).Perm
      (preprocess_unchecked fs1 fs2 inst1)) ∧
    (∀ f ∈ (checker_states_after fs1 fs2 inst1 cs k).unchecked_funcs,
      f ∉ (checker_states_after fs1 fs2 inst1 cs k).verified_funcs ∧
      f ∉ (checker_states_after fs1 fs2 inst1 cs k).tested_funcs) ∧
    (∀ f ∈ (checker_states_after fs1 fs2 inst1 cs k).verified_funcs,
      f ∉ (checker_states_after fs1 fs2 inst1 cs k).tested_funcs) ∧
    (∀ f : CommonFunction,
      (f ∈ (checker_states_after fs1 fs2 inst1 cs k).unchecked_funcs ∨
        f ∈ (checker_states_after fs1 fs2 inst1 cs k).verified_funcs ∨
        f ∈ (checker_states_after fs1 fs2 inst1 cs k).tested_funcs) →
      f.metadata.is_constructor = false ∧ f.metadata.is_getter = false) := by
  have hinit : (((⟨preprocess_unchecked fs1 fs2 inst1, [], []⟩ : CheckerState).unchecked_funcs ++
      ((⟨preprocess_unchecked fs1 fs2 inst1, [], []⟩ : CheckerState).verified_funcs ++
        (⟨preprocess_unchecked fs1 fs2 inst1, [], []⟩ : CheckerState).tested_funcs))).Perm
      (preprocess_unchecked fs1 fs2 inst1) := by
    show ((preprocess_unchecked fs1 fs2 inst1) ++ ([] ++ [])).Perm (preprocess_unchecked fs1 fs2 inst1)
    simp
  have hperm := run_all_perm (preprocess_unchecked fs1 fs2 inst1) hnd (cs.take k)
    ⟨preprocess_unchecked fs1 fs2 inst1, [], []⟩ hinit
  have hperm' : (((checker_states_after fs1 fs2 inst1 cs k).unchecked_funcs ++
      ((checker_states_after fs1 fs2 inst1 cs k).verified_funcs ++
        (checker_states_after fs1 fs2 inst1 cs k).tested_funcs)).Perm
      (preprocess_unchecked fs1 fs2 inst1)) := hperm
  have hndnames := ((hperm'.map (fun f => f.metadata.name)).nodup_iff).mpr hnd
  have hndu := hndnames.of_map
  have h1 := List.nodup_append.mp hndu
  have h2 := List.nodup_append.mp h1.2.1
  have hmem_pre : ∀ f : CommonFunction, f ∈ preprocess_unchecked fs1 fs2 inst1 →
      f.metadata.is_constructor = false ∧ f.metadata.is_getter = false := by
    intro f hf
    have := List.of_mem_filter hf
    constructor
    · have h := (Bool.and_eq_true _ _).mp this
      simpa using h.1
    · have h := (Bool.and_eq_true _ _).mp this
      simpa using h.2
  refine ⟨hperm', ?_, ?_, ?_⟩
  · intro f hf
    have hnot := h1.2.2 hf
    constructor
    · intro hv
      exact hnot (List.mem_append.mpr (Or.inl hv))
    · intro ht
      exact hnot (List.mem_append.mpr (Or.inr ht))
  · intro f hf
    exact h2.2.2 hf
  · intro f hf
    apply hmem_pre
    refine (hperm'.mem_iff).mp ?_
    rcases hf with h | h | h
    · exact List.mem_append.mpr (Or.inl h)
    · exact List.mem_append.mpr (Or.inr (List.mem_append.mpr (Or.inl h)))
    · exact List.mem_append.mpr (Or.inr (List.mem_append.mpr (Or.inr h)))

/-- Claim C1, counterexample to the claim as stated (no distinctness of
names is guaranteed): two matched pairs whose generic owning types
`Foo<Bar>` / `Foo<Baz>` are both rewritten to the alias `FB` enter the
initial partition as two distinct pairs sharing the name `FB::f`; a single
formal component reporting that name `ok` moves one pair to Verified but
removes both from Unchecked, shrinking the partition from two pairs to
one — a pair is deleted by a component step. -/
theorem claim_C1_counterexample :
    (preprocess_unchecked
        [⟨⟨⟨[['f']]⟩, ⟨['f'], [], none⟩,
            some (.generic ⟨[['F', 'o', 'o']]⟩ [.precise ⟨[['B', 'a', 'r']]⟩]), none⟩, ['a']⟩,
          ⟨⟨⟨[['g']]⟩, ⟨['f'], [], none⟩,
            some (.generic ⟨[['F', 'o', 'o']]⟩ [.precise ⟨[['B', 'a', 'z']]⟩]), none⟩, ['b']⟩]
        [⟨⟨⟨[['h']]⟩, ⟨['f'], [], none⟩, none, none⟩, ['c']⟩]
        [⟨⟨[['F', 'B']]⟩, .generic ⟨[['F', 'o', 'o']]⟩ [.precise ⟨[['B', 'a', 'r']]⟩]⟩]).length = 2 ∧
    ((checker_states_after
        [⟨⟨⟨[['f']]⟩, ⟨['f'], [], none⟩,
            some (.generic ⟨[['F', 'o', 'o']]⟩ [.precise ⟨[['B', 'a', 'r']]⟩]), none⟩, ['a']⟩,
          ⟨⟨⟨[['g']]⟩, ⟨['f'], [], none⟩,
            some (.generic ⟨[['F', 'o', 'o']]⟩ [.precise ⟨[['B', 'a', 'z']]⟩]), none⟩, ['b']⟩]
        [⟨⟨⟨[['h']]⟩, ⟨['f'], [], none⟩, none, none⟩, ['c']⟩]
        [⟨⟨[['F', 'B']]⟩, .generic ⟨[['F', 'o', 'o']]⟩ [.precise ⟨[['B', 'a', 'r']]⟩]⟩]
        [⟨true, fun _ => ⟨.ok (), [⟨[['F', 'B'], ['f']]⟩], []⟩⟩] 1).unchecked_funcs.length +
      ((checker_states_after
        [⟨⟨⟨[['f']]⟩, ⟨['f'], [], none⟩,
            some (.generic ⟨[['F', 'o', 'o']]⟩ [.precise ⟨[['B', 'a', 'r']]⟩]), none⟩, ['a']⟩,
          ⟨⟨⟨[['g']]⟩, ⟨['f'], [], none⟩,
            some (.generic ⟨[['F', 'o', 'o']]⟩ [.precise ⟨[['B', 'a', 'z']]⟩]), none⟩, ['b']⟩]
        [⟨⟨⟨[['h']]⟩, ⟨['f'], [], none⟩, none, none⟩, ['c']⟩]
        [⟨⟨[['F', 'B']]⟩, .generic ⟨[['F', 'o', 'o']]⟩ [.precise ⟨[['B', 'a', 'r']]⟩]⟩]
        [⟨true, fun _ => ⟨.ok (), [⟨[['F', 'B'], ['f']]⟩], []⟩⟩] 1).verified_funcs.length +
        (checker_states_after
        [⟨⟨⟨[['f']]⟩, ⟨['f'], [], none⟩,
            some (.generic ⟨[['F', 'o', 'o']]⟩ [.precise ⟨[['B', 'a', 'r']]⟩]), none⟩, ['a']⟩,
          ⟨⟨⟨[['g']]⟩, ⟨['f'], [], none⟩,
            some (.generic ⟨[['F', 'o', 'o']]⟩ [.precise ⟨[['B', 'a', 'z']]⟩]), none⟩, ['b']⟩]
        [⟨⟨⟨[['h']]⟩, ⟨['f'], [], none⟩, none, none⟩, ['c']⟩]
        [⟨⟨[['F', 'B']]⟩, .generic ⟨[['F', 'o', 'o']]⟩ [.precise ⟨[['B', 'a', 'r']]⟩]⟩]
        [⟨true, fun _ => ⟨.ok (), [⟨[['F', 'B'], ['f']]⟩], []⟩⟩] 1).tested_funcs.length)) = 1 :=
  ⟨rfl, rfl⟩

theorem claim_C1_witness :
    (((preprocess_unchecked [⟨⟨⟨[['f']]⟩, ⟨['f'], [], none⟩, none, none⟩, ['a']⟩]
        [⟨⟨⟨[['f']]⟩, ⟨['f'], [], none⟩, none, none⟩, ['b']⟩] []).map
      (fun f => f.metadata.name)).Nodup) ∧
    (((checker_states_after [⟨⟨⟨[['f']]⟩, ⟨['f'], [], none⟩, none, none⟩, ['a']⟩]
        [⟨⟨⟨[['f']]⟩, ⟨['f'], [], none⟩, none, none⟩, ['b']⟩] []
        [⟨true, fun _ => ⟨.ok (), [⟨[['f']]⟩], []⟩⟩] 1).unchecked_funcs ++
      ((checker_states_after [⟨⟨⟨[['f']]⟩, ⟨['f'], [], none⟩, none, none⟩, ['a']⟩]
        [⟨⟨⟨[['f']]⟩, ⟨['f'], [], none⟩, none, none⟩, ['b']⟩] []
        [⟨true, fun _ => ⟨.ok (), [⟨[['f']]⟩], []⟩⟩] 1).verified_funcs ++
        (checker_states_after [⟨⟨⟨[['f']]⟩, ⟨['f'], [], none⟩, none, none⟩, ['a']⟩]
        [⟨⟨⟨[['f']]⟩, ⟨['f'], [], none⟩, none, none⟩, ['b']⟩] []
        [⟨true, fun _ => ⟨.ok (), [⟨[['f']]⟩], []⟩⟩] 1).tested_funcs)).Perm
      (preprocess_unchecked [⟨⟨⟨[['f']]⟩, ⟨['f'], [], none⟩, none, none⟩, ['a']⟩]
        [⟨⟨⟨[['f']]⟩, ⟨['f'], [], none⟩, none, none⟩, ['b']⟩] [])) :=
  ⟨by decide,
    (claim_C1_partition_invariant [⟨⟨⟨[['f']]⟩, ⟨['f'], [], none⟩, none, none⟩, ['a']⟩]
      [⟨⟨⟨[['f']]⟩, ⟨['f'], [], none⟩, none, none⟩, ['b']⟩] []
      [⟨true, fun _ => ⟨.ok (), [⟨[['f']]⟩], []⟩⟩] 1 (by decide)).1⟩


/-! ## Claim C4: signature matching -/

theorem zip_all_get (l1 l2 : List FnArg) (hlen : l1.length = l2.length) :
    ((l1.zip l2).all fun ab => fn_arg_eq ab.1 ab.2) = true ↔
      ∀ i (h1 : i < l1.length) (h2 : i < l2.length),
        fn_arg_eq (l1.get ⟨i, h1⟩) (l2.get ⟨i, h2⟩) = true := by
  induction l1 generalizing l2 with
  | nil =>
    cases l2 with
    | nil => simp
    | cons b t2 => simp at hlen
  | cons a t1 ih =>
    cases l2 with
    | nil => simp at hlen
    | cons b t2 =>
      have hl : t1.length = t2.length := by simpa using hlen
      constructor
      · intro h i h1 h2
        simp only [List.zip_cons_cons, List.all_cons, Bool.and_eq_true] at h
        cases i with
        | zero => exact h.1
        | succ j => exact (ih t2 hl).mp h.2 j (by simpa using h1) (by simpa using h2)
      · intro h
        simp only [List.zip_cons_cons, List.all_cons, Bool.and_eq_true]
        refine ⟨h 0 (by simp) (by simp), (ih t2 hl).mpr ?_⟩
        intro j hj1 hj2
        exact h (j + 1) (by simpa using hj1) (by simpa using hj2)

theorem sig_eq_iff_spec (s1 s2 : Signature) :
    s1.sig_eq s2 = true ↔ sig_match_spec s1 s2 := by
  unfold Signature.sig_eq sig_match_spec
  simp only [Bool.and_eq_true, decide_eq_true_eq]
  constructor
  · rintro ⟨⟨⟨hid, hlen⟩, hall⟩, hout⟩
    refine ⟨hid, hlen, (zip_all_get _ _ hlen).mp hall, ?_⟩
    cases ho1 : s1.output with
    | none =>
      cases ho2 : s2.output with
      | none => exact Or.inl ⟨rfl, rfl⟩
      | some b => rw [ho1, ho2] at hout; simp at hout
    | some a =>
      cases ho2 : s2.output with
      | none => rw [ho1, ho2] at hout; simp at hout
      | some b => rw [ho1, ho2] at hout; exact Or.inr ⟨a, b, rfl, rfl, hout⟩
  · rintro ⟨hid, hlen, hget, hout⟩
    refine ⟨⟨⟨hid, hlen⟩, (zip_all_get _ _ hlen).mpr hget⟩, ?_⟩
    rcases hout with ⟨ho1, ho2⟩ | ⟨a, b, ho1, ho2, hab⟩
    · rw [ho1, ho2]
    · rw [ho1, ho2]
      exact hab

theorem match_common_foldl_init (fs2 : List Function) (l : List Function) :
    ∀ init : List CommonFunction,
      l.foldl
        (fun acc func =>
          match fs2.find? (fun func2 => func.metadata.signature.sig_eq func2.metadata.signature) with
          | some func2 => acc ++ [⟨func.metadata, func.body, func2.body⟩]
          | none => acc)
        init =
      init ++ match_common l fs2 := by
  induction l with
  | nil => intro init; simp [match_common]
  | cons g t2 ih =>
    intro init
    unfold match_common
    rw [List.foldl_cons, List.foldl_cons, ih, ih]
    cases hf : fs2.find? (fun func2 => g.metadata.signature.sig_eq func2.metadata.signature) with
    | some f2 => simp
    | none => simp

theorem match_common_cons (f : Function) (t fs2 : List Function) :
    match_common (f :: t) fs2 =
      (match fs2.find? (fun func2 => f.metadata.signature.sig_eq func2.metadata.signature) with
        | some func2 => [(⟨f.metadata, f.body, func2.body⟩ : CommonFunction)]
        | none => []) ++ match_common t fs2 := by
  show (f :: t).foldl _ [] = _
  simp only [List.foldl_cons]
  cases hf : fs2.find? (fun func2 => f.metadata.signature.sig_eq func2.metadata.signature) with
  | some f2 =>
    rw [match_common_foldl_init]
    simp
  | none =>
    rw [match_common_foldl_init]

theorem match_common_countP_zero (fs2 : List Function) (n : Path) :
    ∀ fs1 : List Function, (∀ g ∈ fs1, g.metadata.name ≠ n) →
      (match_common fs1 fs2).countP (fun cf => decide (cf.metadata.name = n)) = 0 := by
  intro fs1
  induction fs1 with
  | nil => intro _; rfl
  | cons f t ih =>
    intro h
    rw [match_common_cons, List.countP_append]
    rw [ih (fun g hg => h g (List.mem_cons_of_mem f hg))]
    cases hf : fs2.find? (fun func2 => f.metadata.signature.sig_eq func2.metadata.signature) with
    | some f2 => simp [List.countP_cons, h f (List.mem_cons_self f t)]
    | none => simp

theorem match_common_countP_one (fs2 : List Function) (n : Path) :
    ∀ fs1 : List Function, (fs1.map (fun g => g.metadata.name)).Nodup →
      (∃ f1 ∈ fs1, f1.metadata.name = n ∧
        ∃ f2 ∈ fs2, f1.metadata.signature.sig_eq f2.metadata.signature = true) →
      (match_common fs1 fs2).countP (fun cf => decide (cf.metadata.name = n)) = 1 := by
  intro fs1
  induction fs1 with
  | nil => rintro _ ⟨f1, hf1, _⟩; cases hf1
  | cons f t ih =>
    rintro hnd ⟨f1, hf1, hf1n, f2, hf2, hf2sig⟩
    have hndt : (t.map (fun g => g.metadata.name)).Nodup := (List.nodup_cons.mp (by simpa using hnd)).2
    have hna : f.metadata.name ∉ t.map (fun g => g.metadata.name) :=
      (List.nodup_cons.mp (by simpa using hnd)).1
    rw [match_common_cons, List.countP_append]
    rcases List.mem_cons.mp hf1 with rfl | hft
    · have hsome : ∃ g, fs2.find?
          (fun func2 => f1.metadata.signature.sig_eq func2.metadata.signature) = some g := by
        rw [← Option.isSome_iff_exists]
        exact List.find?_isSome.mpr ⟨f2, hf2, hf2sig⟩
      obtain ⟨g, hg⟩ := hsome
      rw [hg]
      have ht0 : (match_common t fs2).countP (fun cf => decide (cf.metadata.name = n)) = 0 := by
        apply match_common_countP_zero
        intro g2 hg2 he
        apply hna
        rw [hf1n, ← he]
        exact List.mem_map_of_mem _ hg2
      simp [ht0, List.countP_cons, hf1n]
    · have hfn : f.metadata.name ≠ n := by
        intro he
        exact hna (by rw [he, ← hf1n]; exact List.mem_map_of_mem _ hft)
      rw [ih hndt ⟨f1, hft, hf1n, f2, hf2, hf2sig⟩]
      cases hf : fs2.find? (fun func2 => f.metadata.signature.sig_eq func2.metadata.signature) with
      | some g2 => simp [List.countP_cons, hfn]
      | none => simp

theorem retain_unmatched_name_ne (fs : List Function) (common : List CommonFunction) (n : Path)
    (hc : ∃ c ∈ common, c.metadata.name = n) :
    ∀ g ∈ retain_unmatched fs common, g.metadata.name ≠ n := by
  intro g hg he
  have hp := List.of_mem_filter hg
  obtain ⟨c, hcmem, hcn⟩ := hc
  have hany : common.any (fun func2 => decide (g.metadata.name = func2.metadata.name)) = true :=
    List.any_eq_true.mpr ⟨c, hcmem, by simp [he, hcn]⟩
  simp [hany] at hp

/-- Claim C4: `Signature::eq` is exactly the spec's matching contract (same
identifier, same arity, positions pairwise both-receiver or both-typed with
equal rendered paths ignoring generic arguments, same return rule); and for a
function present in both source lists with identical name and `sig_eq`-equal
signature (and distinct names within source 1, as any one parsed source
provides), exactly one matched pair bears its name, and that name is removed
from both leftover lists. -/
theorem claim_C4_matching (fs1 fs2 : List Function) (f1 f2 : Function)
    (h1 : f1 ∈ fs1) (h2 : f2 ∈ fs2)
    (hname : f1.metadata.name = f2.metadata.name)
    (hsig : f1.metadata.signature.sig_eq f2.metadata.signature = true)
    (hnd : (fs1.map (fun g => g.metadata.name)).Nodup) :
    (∀ s1 s2 : Signature, s1.sig_eq s2 = true ↔ sig_match_spec s1 s2) ∧
    (match_common fs1 fs2).countP (fun cf => decide (cf.metadata.name = f1.metadata.name)) = 1 ∧
    (∀ g ∈ retain_unmatched fs1 (match_common fs1 fs2), g.metadata.name ≠ f1.metadata.name) ∧
    (∀ g ∈ retain_unmatched fs2 (match_common fs1 fs2), g.metadata.name ≠ f1.metadata.name) := by
  have hcount : (match_common fs1 fs2).countP
      (fun cf => decide (cf.metadata.name = f1.metadata.name)) = 1 :=
    match_common_countP_one fs2 f1.metadata.name fs1 hnd ⟨f1, h1, rfl, f2, h2, hsig⟩
  have hex : ∃ c ∈ match_common fs1 fs2, c.metadata.name = f1.metadata.name := by
    have hpos : 0 < (match_common fs1 fs2).countP
        (fun cf => decide (cf.metadata.name = f1.metadata.name)) := by
      rw [hcount]
      exact Nat.zero_lt_one
    obtain ⟨c, hcmem, hcp⟩ := List.countP_pos_iff.mp hpos
    exact ⟨c, hcmem, by simpa using hcp⟩
  exact ⟨sig_eq_iff_spec, hcount,
    retain_unmatched_name_ne fs1 (match_common fs1 fs2) f1.metadata.name hex,
    retain_unmatched_name_ne fs2 (match_common fs1 fs2) f1.metadata.name hex⟩

theorem claim_C4_witness :
    (match_common [⟨⟨⟨[['f']]⟩, ⟨['f'], [], none⟩, none, none⟩, ['a']⟩]
        [⟨⟨⟨[['f']]⟩, ⟨['f'], [], none⟩, none, none⟩, ['b']⟩]).countP
      (fun cf => decide (cf.metadata.name =
        (⟨⟨⟨[['f']]⟩, ⟨['f'], [], none⟩, none, none⟩, ['a']⟩ : Function).metadata.name)) = 1 :=
  (claim_C4_matching [⟨⟨⟨[['f']]⟩, ⟨['f'], [], none⟩, none, none⟩, ['a']⟩]
    [⟨⟨⟨[['f']]⟩, ⟨['f'], [], none⟩, none, none⟩, ['b']⟩]
    ⟨⟨⟨[['f']]⟩, ⟨['f'], [], none⟩, none, none⟩, ['a']⟩
    ⟨⟨⟨[['f']]⟩, ⟨['f'], [], none⟩, none, none⟩, ['b']⟩
    (List.mem_singleton.mpr rfl) (List.mem_singleton.mpr rfl) rfl rfl (by decide)).2.1


/-! ## Claim C5: generic-instantiation alias rewriting -/

theorem rewrite_pair_foldl (inst_types : List InstantiatedType) (func : CommonFunction)
    (it : Ty) :
    ∀ init : List CommonFunction,
      inst_types.foldl
        (fun acc inst =>
          if inst.concrete.eq_ignore_generics it then acc ++ [rename_with inst func] else acc)
        init =
      init ++ (inst_types.filter (fun inst => inst.concrete.eq_ignore_generics it)).map
        (fun inst => rename_with inst func) := by
  induction inst_types with
  | nil => intro init; simp
  | cons i t ih =>
    intro init
    rw [List.foldl_cons]
    cases hi : i.concrete.eq_ignore_generics it with
    | true =>
      rw [if_pos rfl, ih, List.filter_cons_of_pos (by simp [hi])]
      simp
    | false =>
      rw [if_neg (by simp), ih, List.filter_cons_of_neg (by simp [hi])]

theorem alias_rewrite_foldl_init (inst_types : List InstantiatedType)
    (l : List CommonFunction) :
    ∀ init : List CommonFunction,
      l.foldl (fun acc func => acc ++ rewrite_pair inst_types func) init =
        init ++ alias_rewrite inst_types l := by
  induction l with
  | nil => intro init; simp [alias_rewrite]
  | cons f t ih =>
    intro init
    unfold alias_rewrite
    rw [List.foldl_cons, List.foldl_cons, ih, ih]
    simp

/-- Claim C5 (amended): the alias-alignment pass emits, for a pair with a
Generic owning type, one rewritten copy per matching alias of source 1's
instantiated-alias list, in scan order — owning type replaced by the precise
alias and name rewritten to `alias :: localIdentifier`; with exactly one
matching alias this is the spec's behaviour, a pair with no matching alias
(or no owning type) passes through unchanged, and each input pair's output
pairs are concatenated in order.  (Source 2's alias list is never consulted,
and more than one matching alias yields more than one output pair — see the
counterexample.) -/
theorem claim_C5_alias_rewrite (inst_types : List InstantiatedType) (func : CommonFunction)
    (rest : List CommonFunction) :
    (func.metadata.impl_type = none → rewrite_pair inst_types func = [func]) ∧
    (∀ it, func.metadata.impl_type = some it →
      rewrite_pair inst_types func =
        (if (inst_types.filter (fun inst => inst.concrete.eq_ignore_generics it)).isEmpty
         then [func]
         else (inst_types.filter (fun inst => inst.concrete.eq_ignore_generics it)).map
           (fun inst => rename_with inst func))) ∧
    (∀ it inst, func.metadata.impl_type = some it →
      inst_types.filter (fun i => i.concrete.eq_ignore_generics it) = [inst] →
      rewrite_pair inst_types func =
        [{ func with
            metadata :=
              { func.metadata with
                impl_type := some (Ty.precise inst.alias_)
                name := inst.alias_.join func.metadata.ident } }]) ∧
    alias_rewrite inst_types (func :: rest) =
      rewrite_pair inst_types func ++ alias_rewrite inst_types rest := by
  refine ⟨?_, ?_, ?_, ?_⟩
  · intro hnone
    unfold rewrite_pair
    rw [hnone]
  · intro it hsome
    unfold rewrite_pair
    rw [hsome]
    simp only [rewrite_pair_foldl inst_types func it []]
    rw [List.nil_append]
    cases hfe : (inst_types.filter (fun inst => inst.concrete.eq_ignore_generics it)).isEmpty with
    | true =>
      have hnil : List.filter (fun inst => inst.concrete.eq_ignore_generics it) inst_types = [] := by
        cases hfl : List.filter (fun inst => inst.concrete.eq_ignore_generics it) inst_types with
        | nil => rfl
        | cons a l => rw [hfl] at hfe; cases hfe
      rw [hnil]
      simp
    | false =>
      have hne : List.filter (fun inst => inst.concrete.eq_ignore_generics it) inst_types ≠ [] := by
        intro he
        rw [he] at hfe
        cases hfe
      have hkey : (List.map (fun inst => rename_with inst func)
          (List.filter (fun inst => inst.concrete.eq_ignore_generics it) inst_types)).isEmpty = false := by
        cases hfl : List.filter (fun inst => inst.concrete.eq_ignore_generics it) inst_types with
        | nil => exact absurd hfl hne
        | cons a l => rfl
      rw [hkey]
  · intro it inst hsome hfilter
    unfold rewrite_pair
    rw [hsome]
    simp only [rewrite_pair_foldl inst_types func it []]
    rw [List.nil_append, hfilter]
    rfl
  · unfold alias_rewrite
    rw [List.foldl_cons]
    rw [show ([] : List CommonFunction) ++ rewrite_pair inst_types func =
      rewrite_pair inst_types func from List.nil_append _]
    exact alias_rewrite_foldl_init inst_types rest (rewrite_pair inst_types func)

/-- Claim C5, counterexample to the claim as stated: with two aliases
`A1 = Foo` and `A2 = Foo` in source 1's instantiated-alias list, a single
pair owned by the generic type `Foo<T>` is rewritten twice — the pass emits
two output pairs (`A1::m` and `A2::m`), not exactly one output pair with the
first matching alias. -/
theorem claim_C5_counterexample :
    (alias_rewrite
        [⟨⟨[['A', '1']]⟩, .generic ⟨[['F', 'o', 'o']]⟩ []⟩,
          ⟨⟨[['A', '2']]⟩, .generic ⟨[['F', 'o', 'o']]⟩ []⟩]
        [⟨⟨⟨[['F', 'o', 'o'], ['m']]⟩, ⟨['m'], [], none⟩,
            some (.generic ⟨[['F', 'o', 'o']]⟩ [.precise ⟨[['T']]⟩]), none⟩, ['a'], ['b']⟩]).length
      = 2 ∧
    (alias_rewrite
        [⟨⟨[['A', '1']]⟩, .generic ⟨[['F', 'o', 'o']]⟩ []⟩,
          ⟨⟨[['A', '2']]⟩, .generic ⟨[['F', 'o', 'o']]⟩ []⟩]
        [⟨⟨⟨[['F', 'o', 'o'], ['m']]⟩, ⟨['m'], [], none⟩,
            some (.generic ⟨[['F', 'o', 'o']]⟩ [.precise ⟨[['T']]⟩]), none⟩, ['a'], ['b']⟩]).map
      (fun f => f.metadata.name) = [⟨[['A', '1'], ['m']]⟩, ⟨[['A', '2'], ['m']]⟩] :=
  ⟨rfl, rfl⟩

theorem claim_C5_witness :
    rewrite_pair [⟨⟨[['A']]⟩, .generic ⟨[['F', 'o', 'o']]⟩ []⟩]
        ⟨⟨⟨[['f']]⟩, ⟨['f'], [], none⟩, none, none⟩, ['a'], ['b']⟩ =
      [⟨⟨⟨[['f']]⟩, ⟨['f'], [], none⟩, none, none⟩, ['a'], ['b']⟩] :=
  (claim_C5_alias_rewrite [⟨⟨[['A']]⟩, .generic ⟨[['F', 'o', 'o']]⟩ []⟩]
    ⟨⟨⟨[['f']]⟩, ⟨['f'], [], none⟩, none, none⟩, ['a'], ['b']⟩ []).1 rfl


/-! ## Claims C7 and C6: the function classifier and its pruning passes -/

theorem classify_step_new (res : FunctionClassifier) (g : CommonFunction) (it : Ty)
    (himpl : g.metadata.impl_type = some it)
    (h1 : g.metadata.ident = "verieasy_new".toList) :
    classify_step res g = { res with constructors := map_insert it g res.constructors } := by
  simp [classify_step, himpl, h1]

theorem classify_step_get (res : FunctionClassifier) (g : CommonFunction) (it : Ty)
    (himpl : g.metadata.impl_type = some it)
    (h1 : g.metadata.ident ≠ "verieasy_new".toList)
    (h2 : g.metadata.ident = "verieasy_get".toList) :
    classify_step res g = { res with getters := map_insert it g res.getters } := by
  simp [classify_step, himpl, h1, h2]

theorem classify_step_method (res : FunctionClassifier) (g : CommonFunction) (it : Ty)
    (himpl : g.metadata.impl_type = some it)
    (h1 : g.metadata.ident ≠ "verieasy_new".toList)
    (h2 : g.metadata.ident ≠ "verieasy_get".toList)
    (hr : g.metadata.signature.inputs.any FnArg.is_receiver = true) :
    classify_step res g = { res with methods := res.methods ++ [g] } := by
  simp only [classify_step, himpl]
  rw [if_neg h1, if_neg h2, if_pos hr]

theorem classify_step_function_some (res : FunctionClassifier) (g : CommonFunction) (it : Ty)
    (himpl : g.metadata.impl_type = some it)
    (h1 : g.metadata.ident ≠ "verieasy_new".toList)
    (h2 : g.metadata.ident ≠ "verieasy_get".toList)
    (hr : g.metadata.signature.inputs.any FnArg.is_receiver = false) :
    classify_step res g = { res with functions := res.functions ++ [g] } := by
  simp only [classify_step, himpl]
  rw [if_neg h1, if_neg h2, if_neg (by simp [hr])]

theorem classify_step_function_none (res : FunctionClassifier) (g : CommonFunction)
    (himpl : g.metadata.impl_type = none) :
    classify_step res g = { res with functions := res.functions ++ [g] } := by
  simp [classify_step, himpl]

theorem classify_step_cases (res : FunctionClassifier) (g : CommonFunction) :
    (∃ it, g.metadata.impl_type = some it ∧ g.metadata.ident = "verieasy_new".toList ∧
      classify_step res g = { res with constructors := map_insert it g res.constructors }) ∨
    (∃ it, g.metadata.impl_type = some it ∧ g.metadata.ident ≠ "verieasy_new".toList ∧
      g.metadata.ident = "verieasy_get".toList ∧
      classify_step res g = { res with getters := map_insert it g res.getters }) ∨
    (∃ it, g.metadata.impl_type = some it ∧ g.metadata.ident ≠ "verieasy_new".toList ∧
      g.metadata.ident ≠ "verieasy_get".toList ∧
      g.metadata.signature.inputs.any FnArg.is_receiver = true ∧
      classify_step res g = { res with methods := res.methods ++ [g] }) ∨
    ((g.metadata.impl_type = none ∨
      (∃ it, g.metadata.impl_type = some it ∧ g.metadata.ident ≠ "verieasy_new".toList ∧
        g.metadata.ident ≠ "verieasy_get".toList ∧
        g.metadata.signature.inputs.any FnArg.is_receiver = false)) ∧
      classify_step res g = { res with functions := res.functions ++ [g] }) := by
  cases himpl : g.metadata.impl_type with
  | none => exact Or.inr (Or.inr (Or.inr ⟨Or.inl rfl,
      classify_step_function_none res g himpl⟩))
  | some it =>
    by_cases h1 : g.metadata.ident = "verieasy_new".toList
    · exact Or.inl ⟨it, rfl, h1, classify_step_new res g it himpl h1⟩
    · by_cases h2 : g.metadata.ident = "verieasy_get".toList
      · exact Or.inr (Or.inl ⟨it, rfl, h1, h2, classify_step_get res g it himpl h1 h2⟩)
      · cases hr : g.metadata.signature.inputs.any FnArg.is_receiver with
        | true =>
          exact Or.inr (Or.inr (Or.inl ⟨it, rfl, h1, h2, rfl,
            classify_step_method res g it himpl h1 h2 hr⟩))
        | false =>
          exact Or.inr (Or.inr (Or.inr ⟨Or.inr ⟨it, rfl, h1, h2, rfl⟩,
            classify_step_function_some res g it himpl h1 h2 hr⟩))

theorem classify_step_mono (res : FunctionClassifier) (g : CommonFunction) :
    (∀ x ∈ res.methods, x ∈ (classify_step res g).methods) ∧
    (∀ x ∈ res.functions, x ∈ (classify_step res g).functions) := by
  rcases classify_step_cases res g with ⟨it, _, _, he⟩ | ⟨it, _, _, _, he⟩ |
    ⟨it, _, _, _, _, he⟩ | ⟨_, he⟩ <;> rw [he]
  · exact ⟨fun x hx => hx, fun x hx => hx⟩
  · exact ⟨fun x hx => hx, fun x hx => hx⟩
  · exact ⟨fun x hx => List.mem_append_left _ hx, fun x hx => hx⟩
  · exact ⟨fun x hx => hx, fun x hx => List.mem_append_left _ hx⟩

theorem classify_foldl_mono (fs : List CommonFunction) :
    ∀ acc : FunctionClassifier,
      (∀ x ∈ acc.methods, x ∈ (fs.foldl classify_step acc).methods) ∧
      (∀ x ∈ acc.functions, x ∈ (fs.foldl classify_step acc).functions) := by
  induction fs with
  | nil => intro acc; exact ⟨fun x hx => hx, fun x hx => hx⟩
  | cons g t ih =>
    intro acc
    rw [List.foldl_cons]
    constructor
    · intro x hx
      exact (ih (classify_step acc g)).1 x ((classify_step_mono acc g).1 x hx)
    · intro x hx
      exact (ih (classify_step acc g)).2 x ((classify_step_mono acc g).2 x hx)

theorem classify_foldl_functions_prop (fs : List CommonFunction) :
    ∀ acc : FunctionClassifier,
      (∀ x ∈ acc.functions, x.metadata.impl_type = none ∨
        (x.metadata.ident ≠ "verieasy_new".toList ∧ x.metadata.ident ≠ "verieasy_get".toList ∧
          x.metadata.signature.inputs.any FnArg.is_receiver = false)) →
      ∀ x ∈ (fs.foldl classify_step acc).functions, x.metadata.impl_type = none ∨
        (x.metadata.ident ≠ "verieasy_new".toList ∧ x.metadata.ident ≠ "verieasy_get".toList ∧
          x.metadata.signature.inputs.any FnArg.is_receiver = false) := by
  induction fs with
  | nil => intro acc h; exact h
  | cons g t ih =>
    intro acc h
    rw [List.foldl_cons]
    apply ih
    rcases classify_step_cases acc g with ⟨it, _, _, he⟩ | ⟨it, _, _, _, he⟩ |
      ⟨it, _, _, _, _, he⟩ | ⟨hg, he⟩ <;> rw [he]
    · exact h
    · exact h
    · exact h
    · intro x hx
      rcases List.mem_append.mp hx with hx2 | hx2
      · exact h x hx2
      · rw [List.mem_singleton.mp hx2]
        rcases hg with hnone | ⟨it, hsome, h1, h2, h3⟩
        · exact Or.inl hnone
        · exact Or.inr ⟨h1, h2, h3⟩

theorem classify_foldl_constructors_prop (fs : List CommonFunction) :
    ∀ acc : FunctionClassifier,
      (∀ kv ∈ acc.constructors, kv.2.metadata.ident = "verieasy_new".toList ∧
        kv.2.metadata.impl_type = some kv.1) →
      ∀ kv ∈ (fs.foldl classify_step acc).constructors,
        kv.2.metadata.ident = "verieasy_new".toList ∧ kv.2.metadata.impl_type = some kv.1 := by
  induction fs with
  | nil => intro acc h; exact h
  | cons g t ih =>
    intro acc h
    rw [List.foldl_cons]
    apply ih
    rcases classify_step_cases acc g with ⟨it, hsome, hident, he⟩ | ⟨it, _, _, _, he⟩ |
      ⟨it, _, _, _, _, he⟩ | ⟨_, he⟩ <;> rw [he]
    · intro kv hkv
      rcases List.mem_append.mp hkv with hkv2 | hkv2
      · exact h kv (List.mem_of_mem_filter hkv2)
      · rw [List.mem_singleton.mp hkv2]
        exact ⟨hident, hsome⟩
    · exact h
    · exact h
    · exact h

theorem classify_foldl_keys_nodup (fs : List CommonFunction) :
    ∀ acc : FunctionClassifier,
      (acc.constructors.map Prod.fst).Nodup →
      ((fs.foldl classify_step acc).constructors.map Prod.fst).Nodup := by
  induction fs with
  | nil => intro acc h; exact h
  | cons g t ih =>
    intro acc h
    rw [List.foldl_cons]
    apply ih
    rcases classify_step_cases acc g with ⟨it, _, _, he⟩ | ⟨it, _, _, _, he⟩ |
      ⟨it, _, _, _, _, he⟩ | ⟨_, he⟩ <;> rw [he]
    · show ((map_insert it g acc.constructors).map Prod.fst).Nodup
      unfold map_insert
      rw [List.map_append]
      apply List.Nodup.append
      · exact List.Nodup.sublist ((List.filter_sublist _).map _) h
      · simp
      · intro t1 ht1 ht2
        simp only [List.map_cons, List.map_nil, List.mem_singleton] at ht2
        subst ht2
        obtain ⟨kv, hkv, hfst⟩ := List.mem_map.mp ht1
        have := List.of_mem_filter hkv
        rw [hfst] at this
        simp only [Bool.not_eq_true'] at this
        rw [show Ty.beq t1 t1 = true from (Ty.beq_iff t1 t1).mpr rfl] at this
        cases this
    · exact h
    · exact h
    · exact h

theorem classify_foldl_methods_impl (fs : List CommonFunction) :
    ∀ acc : FunctionClassifier,
      (∀ m ∈ acc.methods, ∃ t, m.metadata.impl_type = some t) →
      ∀ m ∈ (fs.foldl classify_step acc).methods, ∃ t, m.metadata.impl_type = some t := by
  induction fs with
  | nil => intro acc h; exact h
  | cons g t ih =>
    intro acc h
    rw [List.foldl_cons]
    apply ih
    rcases classify_step_cases acc g with ⟨it, _, _, he⟩ | ⟨it, _, _, _, he⟩ |
      ⟨it, hsome, _, _, _, he⟩ | ⟨_, he⟩ <;> rw [he]
    · exact h
    · exact h
    · intro m hm
      rcases List.mem_append.mp hm with hm2 | hm2
      · exact h m hm2
      · rw [List.mem_singleton.mp hm2]
        exact ⟨it, hsome⟩
    · exact h

theorem classify_mem_methods (fs : List CommonFunction) (f : CommonFunction) (t : Ty)
    (himpl : f.metadata.impl_type = some t)
    (hnew : f.metadata.ident ≠ "verieasy_new".toList)
    (hget : f.metadata.ident ≠ "verieasy_get".toList)
    (hrec : f.metadata.signature.inputs.any FnArg.is_receiver = true) :
    ∀ acc : FunctionClassifier, f ∈ fs → f ∈ (fs.foldl classify_step acc).methods := by
  induction fs with
  | nil => intro acc hf; cases hf
  | cons g tl ih =>
    intro acc hf
    rw [List.foldl_cons]
    rcases List.mem_cons.mp hf with rfl | hft
    · apply (classify_foldl_mono tl (classify_step acc f)).1
      rcases classify_step_cases acc f with ⟨it, _, hid, he⟩ | ⟨it, _, _, hid, he⟩ |
        ⟨it, _, _, _, _, he⟩ | ⟨hg, he⟩
      · exact absurd hid hnew
      · exact absurd hid hget
      · rw [he]
        exact List.mem_append_right _ (List.mem_singleton.mpr rfl)
      · rcases hg with hnone | ⟨it, _, _, _, hfalse⟩
        · rw [himpl] at hnone
          cases hnone
        · rw [hrec] at hfalse
          cases hfalse
    · exact ih (classify_step acc g) hft

theorem classify_mem_functions (fs : List CommonFunction) (f : CommonFunction) (t : Ty)
    (himpl : f.metadata.impl_type = some t)
    (hnew : f.metadata.ident ≠ "verieasy_new".toList)
    (hget : f.metadata.ident ≠ "verieasy_get".toList)
    (hrec : f.metadata.signature.inputs.any FnArg.is_receiver = false) :
    ∀ acc : FunctionClassifier, f ∈ fs → f ∈ (fs.foldl classify_step acc).functions := by
  induction fs with
  | nil => intro acc hf; cases hf
  | cons g tl ih =>
    intro acc hf
    rw [List.foldl_cons]
    rcases List.mem_cons.mp hf with rfl | hft
    · apply (classify_foldl_mono tl (classify_step acc f)).2
      rcases classify_step_cases acc f with ⟨it, _, hid, he⟩ | ⟨it, _, _, hid, he⟩ |
        ⟨it, _, _, _, htrue, he⟩ | ⟨hg, he⟩
      · exact absurd hid hnew
      · exact absurd hid hget
      · rw [hrec] at htrue
        cases htrue
      · rw [he]
        exact List.mem_append_right _ (List.mem_singleton.mpr rfl)
    · exact ih (classify_step acc g) hft

/-- Claim C7 (amended): in the classifier of `generate.rs`, a pair with an
owning type whose local identifier is neither reserved marker
(`verieasy_new`/`verieasy_get`) classifies as Method exactly when its
signature has a receiver, never landing in Functions; when receiver-less it
classifies as Function regardless of its return type; and every entry of the
Constructors bucket is a pair named by the reserved constructor marker and
keyed by its owning type — the return type plays no role in constructor
classification. -/
theorem claim_C7_classifier (fs : List CommonFunction) (f : CommonFunction) (t : Ty)
    (hmem : f ∈ fs) (himpl : f.metadata.impl_type = some t)
    (hnew : f.metadata.ident ≠ "verieasy_new".toList)
    (hget : f.metadata.ident ≠ "verieasy_get".toList) :
    (f.metadata.signature.inputs.any FnArg.is_receiver = true →
      f ∈ (FunctionClassifier.classify fs).methods ∧
      f ∉ (FunctionClassifier.classify fs).functions) ∧
    (f.metadata.signature.inputs.any FnArg.is_receiver = false →
      f ∈ (FunctionClassifier.classify fs).functions) ∧
    (∀ kv ∈ (FunctionClassifier.classify fs).constructors,
      kv.2.metadata.ident = "verieasy_new".toList ∧ kv.2.metadata.impl_type = some kv.1) := by
  refine ⟨?_, ?_, ?_⟩
  · intro hrec
    constructor
    · exact classify_mem_methods fs f t himpl hnew hget hrec ⟨[], [], [], []⟩ hmem
    · intro hcontra
      have := classify_foldl_functions_prop fs ⟨[], [], [], []⟩ (by intro x hx; cases hx) f hcontra
      rcases this with hnone | ⟨_, _, hfalse⟩
      · rw [himpl] at hnone
        cases hnone
      · rw [hrec] at hfalse
        cases hfalse
  · intro hrec
    exact classify_mem_functions fs f t himpl hnew hget hrec ⟨[], [], [], []⟩ hmem
  · exact classify_foldl_constructors_prop fs ⟨[], [], [], []⟩ (by intro kv hkv; cases hkv)

/-- Claim C7, counterexample to the claim as stated: a receiver-less pair
`T::make` whose return type renders identically to its owning type `T` — the
claim's constructor condition — is classified as a free Function and the
constructor bucket stays empty, because the classifier of `generate.rs` keys
constructors on the reserved marker name only. -/
theorem claim_C7_counterexample :
    type_to_string (SynType.path [(['T'], [])]) [':', ':'] =
      (Path.mk [['T']]).to_string ∧
    (⟨⟨⟨[['T'], ['m', 'a', 'k', 'e']]⟩, ⟨['m', 'a', 'k', 'e'], [],
        some (SynType.path [(['T'], [])])⟩, some (.precise ⟨[['T']]⟩), none⟩,
      ['a'], ['b']⟩ : CommonFunction).metadata.signature.inputs.any FnArg.is_receiver = false ∧
    (FunctionClassifier.classify
        [⟨⟨⟨[['T'], ['m', 'a', 'k', 'e']]⟩, ⟨['m', 'a', 'k', 'e'], [],
            some (SynType.path [(['T'], [])])⟩, some (.precise ⟨[['T']]⟩), none⟩,
          ['a'], ['b']⟩]).functions =
      [⟨⟨⟨[['T'], ['m', 'a', 'k', 'e']]⟩, ⟨['m', 'a', 'k', 'e'], [],
          some (SynType.path [(['T'], [])])⟩, some (.precise ⟨[['T']]⟩), none⟩,
        ['a'], ['b']⟩] ∧
    (FunctionClassifier.classify
        [⟨⟨⟨[['T'], ['m', 'a', 'k', 'e']]⟩, ⟨['m', 'a', 'k', 'e'], [],
            some (SynType.path [(['T'], [])])⟩, some (.precise ⟨[['T']]⟩), none⟩,
          ['a'], ['b']⟩]).constructors = [] :=
  ⟨rfl, rfl, rfl, rfl⟩

theorem claim_C7_witness :
    (⟨⟨⟨[['T'], ['m']]⟩, ⟨['m'], [.receiver], none⟩, some (.precise ⟨[['T']]⟩), none⟩,
        ['a'], ['b']⟩ : CommonFunction) ∈
      (FunctionClassifier.classify
        [⟨⟨⟨[['T'], ['m']]⟩, ⟨['m'], [.receiver], none⟩, some (.precise ⟨[['T']]⟩), none⟩,
          ['a'], ['b']⟩]).methods ∧
    (⟨⟨⟨[['T'], ['m']]⟩, ⟨['m'], [.receiver], none⟩, some (.precise ⟨[['T']]⟩), none⟩,
        ['a'], ['b']⟩ : CommonFunction) ∉
      (FunctionClassifier.classify
        [⟨⟨⟨[['T'], ['m']]⟩, ⟨['m'], [.receiver], none⟩, some (.precise ⟨[['T']]⟩), none⟩,
          ['a'], ['b']⟩]).functions :=
  (claim_C7_classifier
    [⟨⟨⟨[['T'], ['m']]⟩, ⟨['m'], [.receiver], none⟩, some (.precise ⟨[['T']]⟩), none⟩,
      ['a'], ['b']⟩]
    ⟨⟨⟨[['T'], ['m']]⟩, ⟨['m'], [.receiver], none⟩, some (.precise ⟨[['T']]⟩), none⟩,
      ['a'], ['b']⟩
    (.precise ⟨[['T']]⟩) (List.mem_singleton.mpr rfl) rfl (by decide) (by decide)).1 rfl


theorem map_contains_iff (t : Ty) (m : List (Ty × CommonFunction)) :
    map_contains t m = true ↔ ∃ kv ∈ m, kv.1 = t := by
  unfold map_contains
  rw [List.any_eq_true]
  constructor
  · rintro ⟨kv, hkv, hbeq⟩
    exact ⟨kv, hkv, (Ty.beq_iff _ _).mp hbeq⟩
  · rintro ⟨kv, hkv, heq⟩
    exact ⟨kv, hkv, (Ty.beq_iff _ _).mpr heq⟩

theorem opt_impl_is_iff (o : Option Ty) (t : Ty) :
    opt_impl_is o t = true ↔ o = some t := by
  cases o with
  | none => simp [opt_impl_is]
  | some u => simp [opt_impl_is, Ty.beq_iff]

theorem impl_ty_of_some (m : CommonFunction) (t : Ty)
    (h : m.metadata.impl_type = some t) : m.impl_ty = t := by
  simp [CommonFunction.impl_ty, h]

theorem ruc_constructors_mem (cl : FunctionClassifier) (kv : Ty × CommonFunction) :
    kv ∈ cl.remove_unused_constructors_and_getters.constructors ↔
      kv ∈ cl.constructors ∧
        cl.methods.any (fun m => opt_impl_is m.metadata.impl_type kv.1) = true := by
  unfold FunctionClassifier.remove_unused_constructors_and_getters
  simp only [List.mem_filter]
  constructor
  · rintro ⟨hmem, hcond⟩
    refine ⟨hmem, ?_⟩
    cases hm : cl.methods.any (fun m => opt_impl_is m.metadata.impl_type kv.1) with
    | true => rfl
    | false =>
      exfalso
      have hku : kv.1 ∈ unused_constructor_types cl := by
        unfold unused_constructor_types
        refine List.mem_filter.mpr ⟨List.mem_map_of_mem _ hmem, ?_⟩
        simp [hm]
      have hany : (unused_constructor_types cl).any (fun t => Ty.beq kv.1 t) = true :=
        List.any_eq_true.mpr ⟨kv.1, hku, (Ty.beq_iff _ _).mpr rfl⟩
      rw [hany] at hcond
      cases hcond
  · rintro ⟨hmem, hm⟩
    refine ⟨hmem, ?_⟩
    cases hany : (unused_constructor_types cl).any (fun t => Ty.beq kv.1 t) with
    | false => rfl
    | true =>
      exfalso
      obtain ⟨t, ht, hbt⟩ := List.any_eq_true.mp hany
      have het : kv.1 = t := (Ty.beq_iff _ _).mp hbt
      subst het
      have := List.of_mem_filter ht
      rw [hm] at this
      cases this

theorem rmwc_missing_mem (cl : FunctionClassifier) (t : Ty) :
    t ∈ missing_constructor_types cl ↔
      ∃ m ∈ cl.methods, m.impl_ty = t ∧ map_contains t cl.constructors = false := by
  unfold missing_constructor_types
  suffices h : ∀ (ms : List CommonFunction) (acc : List Ty),
      (t ∈ ms.foldl
        (fun acc m =>
          if ! map_contains m.impl_ty cl.constructors && ! acc.any (fun u => Ty.beq u m.impl_ty)
          then acc ++ [m.impl_ty]
          else acc) acc ↔
      t ∈ acc ∨ ∃ m ∈ ms, m.impl_ty = t ∧ map_contains t cl.constructors = false) by
    rw [h cl.methods []]
    simp
  intro ms
  induction ms with
  | nil => intro acc; simp
  | cons m0 tl ih =>
    intro acc
    rw [List.foldl_cons]
    cases hc : (! map_contains m0.impl_ty cl.constructors &&
        ! acc.any (fun u => Ty.beq u m0.impl_ty)) with
    | true =>
      rw [if_pos rfl, ih]
      have hnc : map_contains m0.impl_ty cl.constructors = false := by
        have hparts := (Bool.and_eq_true _ _).mp hc
        simpa using hparts.1
      constructor
      · rintro (hacc | ⟨m, hm, he, hcont⟩)
        · rcases List.mem_append.mp hacc with h | h
          · exact Or.inl h
          · rw [List.mem_singleton.mp h]
            exact Or.inr ⟨m0, List.mem_cons_self _ _, rfl, hnc⟩
        · exact Or.inr ⟨m, List.mem_cons_of_mem _ hm, he, hcont⟩
      · rintro (h | ⟨m, hm, he, hcont⟩)
        · exact Or.inl (List.mem_append_left _ h)
        · rcases List.mem_cons.mp hm with rfl | hmtl
          · exact Or.inl (List.mem_append_right _ (List.mem_singleton.mpr he.symm))
          · exact Or.inr ⟨m, hmtl, he, hcont⟩
    | false =>
      rw [if_neg (by simp [hc]), ih]
      constructor
      · rintro (h | ⟨m, hm, he, hcont⟩)
        · exact Or.inl h
        · exact Or.inr ⟨m, List.mem_cons_of_mem _ hm, he, hcont⟩
      · rintro (h | ⟨m, hm, he, hcont⟩)
        · exact Or.inl h
        · rcases List.mem_cons.mp hm with rfl | hmtl
          · cases hcm : map_contains m.impl_ty cl.constructors with
            | true =>
              rw [← he, hcm] at hcont
              cases hcont
            | false =>
              have hdup : acc.any (fun u => Ty.beq u m.impl_ty) = true := by
                cases hda : acc.any (fun u => Ty.beq u m.impl_ty) with
                | true => rfl
                | false =>
                  rw [hcm, hda] at hc
                  cases hc
              obtain ⟨u, hu, hbu⟩ := List.any_eq_true.mp hdup
              refine Or.inl ?_
              rw [← he, ← (Ty.beq_iff u _).mp hbu]
              exact hu
          · exact Or.inr ⟨m, hmtl, he, hcont⟩

theorem rmwc_methods_mem (cl : FunctionClassifier) (m : CommonFunction) (tm : Ty)
    (himpl : m.metadata.impl_type = some tm) :
    m ∈ cl.remove_methods_without_constructors.methods ↔
      m ∈ cl.methods ∧ map_contains tm cl.constructors = true := by
  unfold FunctionClassifier.remove_methods_without_constructors
  simp only [List.mem_filter]
  have him : m.impl_ty = tm := impl_ty_of_some m tm himpl
  constructor
  · rintro ⟨hm, hcond⟩
    refine ⟨hm, ?_⟩
    cases hcm : map_contains tm cl.constructors with
    | true => rfl
    | false =>
      exfalso
      have hmiss : tm ∈ missing_constructor_types cl :=
        (rmwc_missing_mem cl tm).mpr ⟨m, hm, him, hcm⟩
      have hany : (missing_constructor_types cl).any
          (fun t => opt_impl_is m.metadata.impl_type t) = true :=
        List.any_eq_true.mpr ⟨tm, hmiss, (opt_impl_is_iff _ _).mpr himpl⟩
      rw [hany] at hcond
      cases hcond
  · rintro ⟨hm, hcont⟩
    refine ⟨hm, ?_⟩
    cases hany : (missing_constructor_types cl).any
        (fun t => opt_impl_is m.metadata.impl_type t) with
    | false => rfl
    | true =>
      exfalso
      obtain ⟨t, ht, hot⟩ := List.any_eq_true.mp hany
      have : some tm = some t := himpl ▸ (opt_impl_is_iff _ _).mp hot
      injection this with het
      subst het
      obtain ⟨_, _, _, hcf⟩ := (rmwc_missing_mem cl tm).mp ht
      rw [hcont] at hcf
      cases hcf

theorem countP_fst_one (mlist : List (Ty × CommonFunction)) (t : Ty)
    (hnd : (mlist.map Prod.fst).Nodup) (hex : ∃ kv ∈ mlist, kv.1 = t) :
    mlist.countP (fun kv => Ty.beq kv.1 t) = 1 := by
  induction mlist with
  | nil =>
    obtain ⟨kv, h, _⟩ := hex
    cases h
  | cons kv0 tl ih =>
    have hndtl : (tl.map Prod.fst).Nodup := (List.nodup_cons.mp (by simpa using hnd)).2
    have hna : kv0.1 ∉ tl.map Prod.fst := (List.nodup_cons.mp (by simpa using hnd)).1
    by_cases h0 : kv0.1 = t
    · rw [List.countP_cons]
      have htl0 : tl.countP (fun kv => Ty.beq kv.1 t) = 0 := by
        rw [List.countP_eq_zero]
        intro kv hkv hbeq
        have : kv.1 = t := (Ty.beq_iff _ _).mp (by simpa using hbeq)
        exact hna (by rw [h0, ← this]; exact List.mem_map_of_mem _ hkv)
      rw [htl0]
      simp [(Ty.beq_iff kv0.1 t).mpr h0]
    · rw [List.countP_cons]
      have hb0 : Ty.beq kv0.1 t = false := by
        cases hb : Ty.beq kv0.1 t with
        | false => rfl
        | true => exact absurd ((Ty.beq_iff _ _).mp hb) h0
      obtain ⟨kv, hkv, hkvt⟩ := hex
      rcases List.mem_cons.mp hkv with rfl | hkvtl
      · exact absurd hkvt h0
      · rw [ih hndtl ⟨kv, hkvtl, hkvt⟩]
        simp [hb0]


/-- Claim C6 (amended): after both pruning passes, every surviving Method's
owning type has exactly one surviving Constructor; every surviving
Constructor's owning type has at least one surviving Method; and a surviving
Getter's owning type has at least one surviving Method provided it also has
a surviving Constructor.  (A Getter whose owning type never had a
Constructor survives both passes with no Method at all — the first pass only
scans constructor keys — see the counterexample.) -/
theorem claim_C6_pruning (fs : List CommonFunction) :
    (∀ m ∈ (classify_for_harness fs).methods,
      ∃ t, m.metadata.impl_type = some t ∧
        (classify_for_harness fs).constructors.countP (fun kv => Ty.beq kv.1 t) = 1) ∧
    (∀ kv ∈ (classify_for_harness fs).constructors,
      ∃ m ∈ (classify_for_harness fs).methods, m.metadata.impl_type = some kv.1) ∧
    (∀ kv ∈ (classify_for_harness fs).getters,
      (∃ c ∈ (classify_for_harness fs).constructors, c.1 = kv.1) →
      ∃ m ∈ (classify_for_harness fs).methods, m.metadata.impl_type = some kv.1) := by
  have hnd1 : ((((FunctionClassifier.classify fs).remove_unused_constructors_and_getters).constructors.map
      Prod.fst)).Nodup := by
    refine List.Nodup.sublist ?_ (classify_foldl_keys_nodup fs ⟨[], [], [], []⟩ (by simp))
    exact (List.filter_sublist _).map _
  have hmain : ∀ kv ∈ (classify_for_harness fs).constructors,
      ∃ m ∈ (classify_for_harness fs).methods, m.metadata.impl_type = some kv.1 := by
    intro kv hkv
    have hchar := (ruc_constructors_mem (FunctionClassifier.classify fs) kv).mp hkv
    obtain ⟨m, hm0, hoi⟩ := List.any_eq_true.mp hchar.2
    have himpl : m.metadata.impl_type = some kv.1 := (opt_impl_is_iff _ _).mp hoi
    have hcont : map_contains kv.1
        ((FunctionClassifier.classify fs).remove_unused_constructors_and_getters).constructors = true :=
      (map_contains_iff _ _).mpr ⟨kv, hkv, rfl⟩
    have hm2 : m ∈ (classify_for_harness fs).methods :=
      (rmwc_methods_mem ((FunctionClassifier.classify fs).remove_unused_constructors_and_getters)
        m kv.1 himpl).mpr ⟨hm0, hcont⟩
    exact ⟨m, hm2, himpl⟩
  refine ⟨?_, hmain, ?_⟩
  · intro m hm
    have hm1 : m ∈ ((FunctionClassifier.classify fs).remove_unused_constructors_and_getters).methods :=
      List.mem_of_mem_filter hm
    obtain ⟨tm, himpl⟩ :=
      classify_foldl_methods_impl fs ⟨[], [], [], []⟩ (by intro m2 hm2; cases hm2) m hm1
    have hchar := (rmwc_methods_mem
      ((FunctionClassifier.classify fs).remove_unused_constructors_and_getters) m tm himpl).mp hm
    refine ⟨tm, himpl, ?_⟩
    exact countP_fst_one _ tm hnd1 ((map_contains_iff _ _).mp hchar.2)
  · rintro kv hkv ⟨c, hc, hceq⟩
    obtain ⟨m, hm, himpl⟩ := hmain c hc
    exact ⟨m, hm, by rw [himpl, hceq]⟩

/-- Claim C6, counterexample to the claim as stated: a single matched pair
named by the getter marker and owned by type `T` (with no constructor and no
method for `T` anywhere) survives both pruning passes — the first pass only
iterates constructor keys, so the orphan Getter is kept even though its
owning type has no surviving Method, violating the claimed post-condition. -/
theorem claim_C6_counterexample :
    (classify_for_harness
        [⟨⟨⟨[['T'], ['g']]⟩, ⟨"verieasy_get".toList, [.receiver], none⟩,
            some (.precise ⟨[['T']]⟩), none⟩, ['a'], ['b']⟩]).getters =
      [(.precise ⟨[['T']]⟩,
        ⟨⟨⟨[['T'], ['g']]⟩, ⟨"verieasy_get".toList, [.receiver], none⟩,
            some (.precise ⟨[['T']]⟩), none⟩, ['a'], ['b']⟩)] ∧
    (classify_for_harness
        [⟨⟨⟨[['T'], ['g']]⟩, ⟨"verieasy_get".toList, [.receiver], none⟩,
            some (.precise ⟨[['T']]⟩), none⟩, ['a'], ['b']⟩]).methods = [] :=
  ⟨rfl, rfl⟩

theorem claim_C6_witness :
    ∀ kv ∈ (classify_for_harness
        [⟨⟨⟨[['T'], ['n']]⟩, ⟨"verieasy_new".toList, [], none⟩, some (.precise ⟨[['T']]⟩), none⟩,
            ['a'], ['b']⟩,
          ⟨⟨⟨[['T'], ['m']]⟩, ⟨['m'], [.receiver], none⟩, some (.precise ⟨[['T']]⟩), none⟩,
            ['a'], ['b']⟩]).constructors,
      ∃ m ∈ (classify_for_harness
        [⟨⟨⟨[['T'], ['n']]⟩, ⟨"verieasy_new".toList, [], none⟩, some (.precise ⟨[['T']]⟩), none⟩,
            ['a'], ['b']⟩,
          ⟨⟨⟨[['T'], ['m']]⟩, ⟨['m'], [.receiver], none⟩, some (.precise ⟨[['T']]⟩), none⟩,
            ['a'], ['b']⟩]).methods, m.metadata.impl_type = some kv.1 :=
  (claim_C6_pruning
    [⟨⟨⟨[['T'], ['n']]⟩, ⟨"verieasy_new".toList, [], none⟩, some (.precise ⟨[['T']]⟩), none⟩,
        ['a'], ['b']⟩,
      ⟨⟨⟨[['T'], ['m']]⟩, ⟨['m'], [.receiver], none⟩, some (.precise ⟨[['T']]⟩), none⟩,
        ['a'], ['b']⟩]).2.1


/-! ## Claim C3: `MISMATCH` output analysis of the sampling components -/

theorem set_append_left (l1 l2 : List Path) (a : Path) :
    ∀ i, i < l1.length → (l1 ++ l2).set i a = l1.set i a ++ l2 := by
  induction l1 with
  | nil => intro i hi; cases hi
  | cons c t ih =>
    intro i hi
    cases i with
    | zero => rfl
    | succ j =>
      simp only [List.cons_append, List.set_cons_succ]
      rw [ih j (by simpa using hi)]

theorem eraseIdx_append_left (l1 l2 : List Path) :
    ∀ i, i < l1.length → (l1 ++ l2).eraseIdx i = l1.eraseIdx i ++ l2 := by
  induction l1 with
  | nil => intro i hi; cases hi
  | cons c t ih =>
    intro i hi
    cases i with
    | zero => rfl
    | succ j =>
      simp only [List.cons_append, List.eraseIdx_cons_succ]
      rw [ih j (by simpa using hi)]

theorem set_perm_eraseIdx_concat (b : Path) :
    ∀ (l : List Path) i, i < l.length → (l.set i b).Perm (l.eraseIdx i ++ [b]) := by
  intro l
  induction l with
  | nil => intro i hi; cases hi
  | cons c t ih =>
    intro i hi
    cases i with
    | zero =>
      simp only [List.set_cons_zero, List.eraseIdx_cons_zero]
      exact (List.perm_append_singleton b t).symm
    | succ j =>
      simp only [List.set_cons_succ, List.eraseIdx_cons_succ, List.cons_append]
      exact (ih j (by simpa using hi)).cons c

theorem set_last_concat (b : Path) : ∀ l : List Path, (l ++ [b]).set l.length b = l ++ [b] := by
  intro l
  induction l with
  | nil => rfl
  | cons c t ih => simp [ih]

theorem eraseIdx_concat_length (b : Path) : ∀ l : List Path, (l ++ [b]).eraseIdx l.length = l := by
  intro l
  induction l with
  | nil => rfl
  | cons c t ih => simp [ih]

theorem swap_remove_perm (l : List Path) (i : Nat) (hi : i < l.length) :
    (swap_remove l i).Perm (l.eraseIdx i) := by
  rcases List.eq_nil_or_concat l with rfl | ⟨L, b, rfl⟩
  · cases hi
  · rw [List.concat_eq_append] at hi ⊢
    unfold swap_remove
    rw [List.getLast?_concat]
    show (((L ++ [b]).set i b).dropLast).Perm ((L ++ [b]).eraseIdx i)
    have hi2 : i < L.length + 1 := by simpa using hi
    rcases Nat.lt_succ_iff_lt_or_eq.mp hi2 with hlt | heq
    · rw [set_append_left L [b] b i hlt, List.dropLast_concat,
        eraseIdx_append_left L [b] i hlt]
      exact set_perm_eraseIdx_concat b L i hlt
    · subst heq
      rw [set_last_concat, List.dropLast_concat, eraseIdx_concat_length]

theorem countP_to_string_le_one (n : Str) :
    ∀ l : List Path, ((l.map (fun f => f.to_string)).Nodup) →
      l.countP (fun f => decide (f.to_string = n)) ≤ 1 := by
  intro l
  induction l with
  | nil => intro _; simp
  | cons a t ih =>
    intro hnd
    have hndt : (t.map (fun f => f.to_string)).Nodup := (List.nodup_cons.mp (by simpa using hnd)).2
    have hna : a.to_string ∉ t.map (fun f => f.to_string) :=
      (List.nodup_cons.mp (by simpa using hnd)).1
    rw [List.countP_cons]
    by_cases ha : a.to_string = n
    · have ht0 : t.countP (fun f => decide (f.to_string = n)) = 0 := by
        rw [List.countP_eq_zero]
        intro x hx hpx
        have : x.to_string = n := by simpa using hpx
        exact hna (by rw [ha, ← this]; exact List.mem_map_of_mem _ hx)
      simp [ht0, ha]
    · simpa [ha] using ih hndt

theorem countP_eraseIdx_add_one (p : Path → Bool) :
    ∀ (l : List Path) i (h : i < l.length), p (l.get ⟨i, h⟩) = true →
      (l.eraseIdx i).countP p + 1 = l.countP p := by
  intro l
  induction l with
  | nil => intro i hi; cases hi
  | cons c t ih =>
    intro i hi hp
    cases i with
    | zero =>
      simp only [List.eraseIdx_cons_zero, List.countP_cons]
      simp only [List.get] at hp
      simp [hp]
    | succ j =>
      have hj : j < t.length := by simpa using hi
      simp only [List.eraseIdx_cons_succ, List.countP_cons]
      have := ih j hj (by simpa using hp)
      omega

theorem findIdx?_go_spec (p : Path → Bool) :
    ∀ (l : List Path) (j i : Nat), List.findIdx? p l j = some i →
      ∃ k, i = j + k ∧ ∃ h : k < l.length, p (l.get ⟨k, h⟩) = true := by
  intro l
  induction l with
  | nil => intro j i h; cases h
  | cons c t ih =>
    intro j i h
    rw [List.findIdx?_cons] at h
    by_cases hc : p c = true
    · rw [if_pos hc] at h
      injection h with h2
      exact ⟨0, by omega, by simpa using Nat.succ_pos t.length, by simpa using hc⟩
    · rw [if_neg hc] at h
      obtain ⟨k, hk, hlt, hp⟩ := ih (j + 1) i h
      exact ⟨k + 1, by omega, by simpa using Nat.succ_lt_succ hlt, by simpa using hp⟩

theorem findIdx?_some_spec (p : Path → Bool) (l : List Path) (i : Nat)
    (h : List.findIdx? p l = some i) :
    ∃ hlt : i < l.length, p (l.get ⟨i, hlt⟩) = true := by
  obtain ⟨k, hk, hlt, hp⟩ := findIdx?_go_spec p l 0 i h
  have : i = k := by omega
  subst this
  exact ⟨hlt, hp⟩

theorem mismatch_step_none_eq (ok : List Path) (line : Str)
    (h : find_mismatch line = none) : mismatch_step ok line = ok := by
  simp [mismatch_step, h]

theorem mismatch_step_notfound_eq (ok : List Path) (line : Str) (n : Str)
    (h1 : find_mismatch line = some n)
    (h2 : ok.findIdx? (fun f => decide (f.to_string = n)) = none) :
    mismatch_step ok line = ok := by
  simp [mismatch_step, h1, h2]

theorem mismatch_step_found_eq (ok : List Path) (line : Str) (n : Str) (i : Nat)
    (h1 : find_mismatch line = some n)
    (h2 : ok.findIdx? (fun f => decide (f.to_string = n)) = some i) :
    mismatch_step ok line = swap_remove ok i := by
  simp [mismatch_step, h1, h2]

theorem mismatch_step_countP_le (n : Str) (ok : List Path) (line : Str) :
    (mismatch_step ok line).countP (fun f => decide (f.to_string = n)) ≤
      ok.countP (fun f => decide (f.to_string = n)) := by
  cases hfm : find_mismatch line with
  | none =>
    rw [mismatch_step_none_eq ok line hfm]
  | some m =>
    cases hidx : ok.findIdx? (fun f => decide (f.to_string = m)) with
    | none =>
      rw [mismatch_step_notfound_eq ok line m hfm hidx]
    | some i =>
      rw [mismatch_step_found_eq ok line m i hfm hidx]
      obtain ⟨hlt, _⟩ := findIdx?_some_spec _ ok i hidx
      rw [(swap_remove_perm ok i hlt).countP_eq]
      exact (List.eraseIdx_sublist ok i).countP_le _

theorem mismatch_step_capture_zero (n : Str) (ok : List Path) (line : Str)
    (hfm : find_mismatch line = some n)
    (hle : ok.countP (fun f => decide (f.to_string = n)) ≤ 1) :
    (mismatch_step ok line).countP (fun f => decide (f.to_string = n)) = 0 := by
  cases hidx : ok.findIdx? (fun f => decide (f.to_string = n)) with
  | none =>
    rw [mismatch_step_notfound_eq ok line n hfm hidx]
    rw [List.countP_eq_zero]
    intro f hf
    have := List.findIdx?_eq_none_iff.mp hidx f hf
    simp [this]
  | some i =>
    rw [mismatch_step_found_eq ok line n i hfm hidx]
    obtain ⟨hlt, hp⟩ := findIdx?_some_spec _ ok i hidx
    rw [(swap_remove_perm ok i hlt).countP_eq]
    have := countP_eraseIdx_add_one (fun f => decide (f.to_string = n)) ok i hlt hp
    omega

theorem foldl_mismatch_countP_le (n : Str) :
    ∀ (ls : List Str) (ok : List Path),
      (ls.foldl mismatch_step ok).countP (fun f => decide (f.to_string = n)) ≤
        ok.countP (fun f => decide (f.to_string = n)) := by
  intro ls
  induction ls with
  | nil => intro ok; exact Nat.le_refl _
  | cons l t ih =>
    intro ok
    rw [List.foldl_cons]
    exact Nat.le_trans (ih (mismatch_step ok l)) (mismatch_step_countP_le n ok l)

/-- Claim C3 (amended): the sampling-component output analysis never reports
any name in `fail` — its `fail` list is always empty and the status is
`Ok` — and (provided the checked functions have pairwise distinct rendered
names, as the checker's distinct pairs provide) a qualified name captured
from a `MISMATCH:` line is instead removed from the returned `ok` list: no
surviving `ok` entry renders to a captured name. -/
theorem claim_C3_mismatch_analysis (functions : List Path) (lines : List Str) :
    (analyze_mismatch_output functions lines).fail = [] ∧
    (analyze_mismatch_output functions lines).status = .ok () ∧
    ((functions.map (fun f => f.to_string)).Nodup →
      ∀ (n : Str) (pre : List Str) (line : Str) (post : List Str),
        lines = pre ++ line :: post → find_mismatch line = some n →
        ∀ f ∈ (analyze_mismatch_output functions lines).ok, f.to_string ≠ n) := by
  refine ⟨rfl, rfl, ?_⟩
  intro hnd n pre line post hsplit hfm f hf he
  have hok : (analyze_mismatch_output functions lines).ok =
      (line :: post).foldl mismatch_step (pre.foldl mismatch_step functions) := by
    show (lines.foldl mismatch_step functions) = _
    rw [hsplit, List.foldl_append]
  have hle1 : (pre.foldl mismatch_step functions).countP
      (fun g => decide (g.to_string = n)) ≤ 1 :=
    Nat.le_trans (foldl_mismatch_countP_le n pre functions)
      (countP_to_string_le_one n functions hnd)
  have hzero : (mismatch_step (pre.foldl mismatch_step functions) line).countP
      (fun g => decide (g.to_string = n)) = 0 :=
    mismatch_step_capture_zero n _ line hfm hle1
  have hfinal : ((line :: post).foldl mismatch_step
      (pre.foldl mismatch_step functions)).countP (fun g => decide (g.to_string = n)) = 0 := by
    rw [List.foldl_cons]
    have := foldl_mismatch_countP_le n post (mismatch_step (pre.foldl mismatch_step functions) line)
    omega
  rw [hok] at hf
  have := List.countP_eq_zero.mp hfinal f hf
  simp [he] at this

/-- Claim C3, counterexample to the claim as stated: the line `MISMATCH: a`
captures the qualified name `a`, yet the analysis reports `fail = []` — the
captured name appears in no fail list (it is removed from `ok` instead). -/
theorem claim_C3_counterexample :
    find_mismatch "MISMATCH: a".toList = some ['a'] ∧
    (analyze_mismatch_output [⟨[['a']]⟩] ["MISMATCH: a".toList]).fail = [] ∧
    (analyze_mismatch_output [⟨[['a']]⟩] ["MISMATCH: a".toList]).ok = [] := by
  refine ⟨by decide, rfl, by decide⟩

theorem claim_C3_witness :
    (([⟨[['a']]⟩, ⟨[['b']]⟩] : List Path).map (fun f => f.to_string)).Nodup ∧
    (∀ f ∈ (analyze_mismatch_output [⟨[['a']]⟩, ⟨[['b']]⟩] ["MISMATCH: a".toList]).ok,
      f.to_string ≠ ['a']) :=
  ⟨by decide,
    (claim_C3_mismatch_analysis [⟨[['a']]⟩, ⟨[['b']]⟩] ["MISMATCH: a".toList]).2.2
      (by decide) ['a'] [] "MISMATCH: a".toList [] rfl (by decide)⟩


/-! ## Claim C9: formal-engine (Kani) report analysis -/

theorem kani_step_header_eq (st : Option Str × List Path) (line w : Str)
    (hh : find_header line = some w)
    (hs : contains_sub "VERIFICATION:- SUCCESSFUL".toList line = false)
    (hf : contains_sub "VERIFICATION:- FAILED".toList line = false) :
    kani_step st line = (some (replace_unders w), st.2) := by
  simp at hs hf
  simp [kani_step, hh, hs, hf]

theorem kani_step_unrecognized_eq (st : Option Str × List Path) (line : Str)
    (hh : find_header line = none)
    (hs : contains_sub "VERIFICATION:- SUCCESSFUL".toList line = false)
    (hf : contains_sub "VERIFICATION:- FAILED".toList line = false) :
    kani_step st line = st := by
  simp at hs hf
  obtain ⟨fn, acc⟩ := st
  cases fn <;> simp [kani_step, hh, hs, hf]

theorem kani_step_success_eq (n : Str) (acc : List Path) (line : Str)
    (hh : find_header line = none)
    (hs : contains_sub "VERIFICATION:- SUCCESSFUL".toList line = true) :
    kani_step (some n, acc) line = (none, acc ++ [Path.from_str n]) := by
  simp at hs
  simp [kani_step, hh, hs]

theorem kani_step_failed_eq (n : Str) (acc : List Path) (line : Str)
    (hh : find_header line = none)
    (hs : contains_sub "VERIFICATION:- SUCCESSFUL".toList line = false)
    (hf : contains_sub "VERIFICATION:- FAILED".toList line = true) :
    kani_step (some n, acc) line = (none, acc) := by
  simp at hs hf
  simp [kani_step, hh, hs, hf]

theorem kani_fold_unrecognized (m : List Str)
    (hm : ∀ l ∈ m, find_header l = none ∧
      contains_sub "VERIFICATION:- SUCCESSFUL".toList l = false ∧
      contains_sub "VERIFICATION:- FAILED".toList l = false) :
    ∀ st : Option Str × List Path, m.foldl kani_step st = st := by
  induction m with
  | nil => intro st; rfl
  | cons l t ih =>
    intro st
    rw [List.foldl_cons]
    obtain ⟨h1, h2, h3⟩ := hm l (List.mem_cons_self _ _)
    rw [kani_step_unrecognized_eq st l h1 h2 h3]
    exact ih (fun x hx => hm x (List.mem_cons_of_mem _ hx)) st

/-- Claim C9: for the formal-engine report analysis, a harness-header line
capturing the flattened name `w` (and itself containing no status marker),
followed — with only unrecognized lines in between — by a success-marker
line, contributes exactly the un-flattened name (`___` restored to `::`) to
the result's `ok` list; the same block followed by a failure-marker line
contributes that name to neither `ok` nor `fail` (`fail` is always empty);
and any line with no header match and no status marker leaves the analysis
state unchanged. -/
theorem claim_C9_kani_report (p m : List Str) (h sl fl w : Str)
    (hh : find_header h = some w)
    (hhs : contains_sub "VERIFICATION:- SUCCESSFUL".toList h = false)
    (hhf : contains_sub "VERIFICATION:- FAILED".toList h = false)
    (hm : ∀ l ∈ m, find_header l = none ∧
      contains_sub "VERIFICATION:- SUCCESSFUL".toList l = false ∧
      contains_sub "VERIFICATION:- FAILED".toList l = false)
    (hsl1 : find_header sl = none)
    (hsl2 : contains_sub "VERIFICATION:- SUCCESSFUL".toList sl = true)
    (hfl1 : find_header fl = none)
    (hfl2 : contains_sub "VERIFICATION:- SUCCESSFUL".toList fl = false)
    (hfl3 : contains_sub "VERIFICATION:- FAILED".toList fl = true) :
    ((analyze_kani_output (p ++ h :: (m ++ [sl]))).ok =
        (analyze_kani_output p).ok ++ [Path.from_str (replace_unders w)] ∧
      (analyze_kani_output (p ++ h :: (m ++ [sl]))).fail = []) ∧
    ((analyze_kani_output (p ++ h :: (m ++ [fl]))).ok = (analyze_kani_output p).ok ∧
      (analyze_kani_output (p ++ h :: (m ++ [fl]))).fail = []) ∧
    (∀ (st : Option Str × List Path) (l : Str),
      find_header l = none →
      contains_sub "VERIFICATION:- SUCCESSFUL".toList l = false →
      contains_sub "VERIFICATION:- FAILED".toList l = false →
      kani_step st l = st) := by
  have hblock : ∀ last : Str, (p ++ h :: (m ++ [last])).foldl kani_step (none, []) =
      kani_step (some (replace_unders w), (p.foldl kani_step (none, [])).2) last := by
    intro last
    rw [List.foldl_append, List.foldl_cons,
      kani_step_header_eq (p.foldl kani_step (none, [])) h w hh hhs hhf,
      List.foldl_append, kani_fold_unrecognized m hm, List.foldl_cons]
    rfl
  refine ⟨⟨?_, rfl⟩, ⟨?_, rfl⟩, fun st l h1 h2 h3 => kani_step_unrecognized_eq st l h1 h2 h3⟩
  · show ((p ++ h :: (m ++ [sl])).foldl kani_step (none, [])).2 = _
    rw [hblock sl,
      kani_step_success_eq (replace_unders w) (p.foldl kani_step (none, [])).2 sl hsl1 hsl2]
    rfl
  · show ((p ++ h :: (m ++ [fl])).foldl kani_step (none, [])).2 = _
    rw [hblock fl,
      kani_step_failed_eq (replace_unders w) (p.foldl kani_step (none, [])).2 fl hfl1 hfl2 hfl3]
    rfl

theorem claim_C9_witness :
    (find_header "Checking harness check_a___b.".toList = some "a___b".toList ∧
      find_header "VERIFICATION:- SUCCESSFUL".toList = none ∧
      find_header "VERIFICATION:- FAILED".toList = none) ∧
    ((analyze_kani_output
        ([] ++ "Checking harness check_a___b.".toList ::
          ([] ++ ["VERIFICATION:- SUCCESSFUL".toList]))).ok =
      (analyze_kani_output []).ok ++
        [Path.from_str (replace_unders "a___b".toList)] ∧
      (analyze_kani_output
        ([] ++ "Checking harness check_a___b.".toList ::
          ([] ++ ["VERIFICATION:- SUCCESSFUL".toList]))).fail = []) :=
  ⟨⟨by decide, by decide, by decide⟩,
    (claim_C9_kani_report [] [] "Checking harness check_a___b.".toList
      "VERIFICATION:- SUCCESSFUL".toList "VERIFICATION:- FAILED".toList "a___b".toList
      (by decide) (by decide) (by decide) (by simp) (by decide) (by decide) (by decide)
      (by decide) (by decide)).1⟩

end VeriEasy
